import Mathlib

/-!
# Verification of the mvp-qr-recognition detection/decode/payment pipeline

Shallow embedding of the Rust sources under `crates/qr-core/src/` :
`emv.rs`, `payment.rs`, `lib.rs`, `decoding.rs`, `detection.rs`,
`preprocessing.rs`.

Modelling conventions:
* Rust strings (`&str`, `String`) are modelled as `List Nat` of their UTF-8
  bytes; every index/length in the Rust code is a byte index, which this
  representation matches exactly.  `char`-level operations of the source
  (`to_lowercase`, `to_uppercase`) are modelled on ASCII bytes; all inputs
  appearing in theorems are ASCII.
* Machine integers (`u8`, `u16`, `u32`) are `Nat` with explicit `% 2 ^ w`
  masking exactly where the Rust arithmetic can wrap.
* `f32` / `f64` arithmetic is idealised as exact rational arithmetic (`Rat`).
  Every floating comparison that a claim's truth depends on is either between
  well-separated constants or is an exact integer-valued computation, so the
  idealisation does not change any modelled outcome; square-root based
  comparisons of the source are rewritten into the equivalent comparisons of
  squares of non-negative quantities (documented at each site).
* Fallible Rust code returns `Option` / `Except`.
* The two external QR codec providers (`rqrr`, `rxing`), the external
  `image`/`imageproc` preprocessing routines and the floating-point image
  rotation are out-of-repo components; they enter the model as explicit
  function parameters, so all theorems quantify over their behaviour.
-/

namespace QR

/-- Decidable equality for `Except`, used to evaluate closed results. -/
instance instDecEqExcept {ε α : Type} [DecidableEq ε] [DecidableEq α] :
    DecidableEq (Except ε α) := fun a b =>
  match a, b with
  | .ok x, .ok y =>
      if h : x = y then isTrue (congrArg Except.ok h)
      else isFalse (fun he => h (Except.ok.inj he))
  | .error e, .error f =>
      if h : e = f then isTrue (congrArg Except.error h)
      else isFalse (fun he => h (Except.error.inj he))
  | .ok _, .error _ => isFalse (fun he => Except.noConfusion he)
  | .error _, .ok _ => isFalse (fun he => Except.noConfusion he)

/-! ## Byte-string helpers -/

/-- UTF-8 encoding of one character (standard 1-4 byte encoding),
used to spell the byte lists of Rust string literals. -/
def utf8Bytes (c : Char) : List Nat :=
  let n := c.toNat
  if n < 0x80 then [n]
  else if n < 0x800 then [0xC0 + n / 64, 0x80 + n % 64]
  else if n < 0x10000 then [0xE0 + n / 4096, 0x80 + n / 64 % 64, 0x80 + n % 64]
  else [0xF0 + n / 262144, 0x80 + n / 4096 % 64, 0x80 + n / 64 % 64, 0x80 + n % 64]

/-- The UTF-8 bytes of a Lean string literal; used to transcribe the Rust
string constants byte-for-byte. -/
def bytes (s : String) : List Nat :=
  s.data.flatMap utf8Bytes

/-- Models `str::to_uppercase` on one byte, valid for ASCII text
(`a`-`z` map to `A`-`Z`, everything else unchanged). -/
def asciiUpper (b : Nat) : Nat :=
  if 97 ≤ b ∧ b ≤ 122 then b - 32 else b

/-- Models `str::to_lowercase` on one byte, valid for ASCII text
(`A`-`Z` map to `a`-`z`, everything else unchanged). -/
def asciiLower (b : Nat) : Nat :=
  if 65 ≤ b ∧ b ≤ 90 then b + 32 else b

/-- `b` is an ASCII decimal digit. -/
def isDigitByte (b : Nat) : Bool := 48 ≤ b && b ≤ 57

/-- Numeric value of a list of ASCII decimal digits, most significant first
(the value computed by a successful `str::parse` of a digit string). -/
def digitsVal (l : List Nat) : Nat :=
  l.foldl (fun acc b => acc * 10 + (b - 48)) 0

/-- Models `usize::from_str` (`"nn".parse::<usize>()`): an optional leading
`+`, then at least one decimal digit. -/
def parseUsize (l : List Nat) : Option Nat :=
  if l = [] then none
  else
    let l1 := if l.headD 0 = 43 then l.tail else l
    if l1 ≠ [] ∧ l1.all (isDigitByte ·) then some (digitsVal l1) else none

/-- One transition of the standard UTF-8 validation automaton (RFC 3629):
the state is the number of continuation bytes still expected together with
the allowed range for the next byte. -/
def utf8Step : Nat × Nat × Nat → Nat → Option (Nat × Nat × Nat)
  | (0, _, _), b =>
      if b < 0x80 then some (0, 0x80, 0xBF)
      else if 0xC2 ≤ b && b ≤ 0xDF then some (1, 0x80, 0xBF)
      else if b = 0xE0 then some (2, 0xA0, 0xBF)
      else if b = 0xED then some (2, 0x80, 0x9F)
      else if 0xE0 ≤ b && b ≤ 0xEF then some (2, 0x80, 0xBF)
      else if b = 0xF0 then some (3, 0x90, 0xBF)
      else if b = 0xF4 then some (3, 0x80, 0x8F)
      else if 0xF0 ≤ b && b ≤ 0xF4 then some (3, 0x80, 0xBF)
      else none
  | (e + 1, lo, hi), b =>
      if lo ≤ b && b ≤ hi then some (e, 0x80, 0xBF) else none

/-- Models `str::from_utf8` validity of a byte slice: the byte list is
accepted by the UTF-8 automaton with no dangling continuation bytes. -/
def validUtf8 (l : List Nat) : Bool :=
  match l.foldlM utf8Step (0, 0x80, 0xBF) with
  | some (0, _, _) => true
  | _ => false

theorem utf8_foldlM_ascii : ∀ (l : List Nat), (∀ b ∈ l, b < 128) → ∀ x y : Nat,
    l.foldlM utf8Step (0, x, y) = some (0, 0x80, 0xBF) ∨
    l.foldlM utf8Step (0, x, y) = some (0, x, y) := by
  intro l
  induction l with
  | nil => intro _ x y; right; rfl
  | cons b rest ih =>
      intro h x y
      have hb : b < 128 := h b (List.mem_cons_self ..)
      have hr : ∀ c ∈ rest, c < 128 := fun c hc => h c (List.mem_cons_of_mem _ hc)
      have hstep : utf8Step (0, x, y) b = some (0, 0x80, 0xBF) := by
        simp [utf8Step, hb]
      rw [List.foldlM_cons, hstep]
      rcases ih hr 0x80 0xBF with h1 | h1
      · left; exact h1
      · left; exact h1

/-- ASCII byte lists are valid UTF-8. -/
theorem validUtf8_of_ascii (l : List Nat) (h : ∀ b ∈ l, b < 128) :
    validUtf8 l = true := by
  unfold validUtf8
  rcases utf8_foldlM_ascii l h 0x80 0xBF with h1 | h1 <;> rw [h1]

/-! ## `emv.rs` : EMV TLV parsing with CRC validation -/

namespace Emv

/-- `EmvError` from `emv.rs` (its `InvalidCrc` variant carries the expected and
actual checksum strings). -/
inductive EmvError where
  | InvalidCrc (expected actual : List Nat)
  | MissingChecksum
  | ParseVerify (msg : List Nat)
  | MalformedData
deriving DecidableEq, Repr

/-- One step of `crc16_ccitt_kermit`'s loop, on `Nat` with the `u16`
wrap-around made explicit by the final `% 2 ^ 16` mask
(`(crc << 8) ^ (x << 12) ^ (x << 5) ^ x` on `u16`). -/
def crcStep (crc byte : Nat) : Nat :=
  let x := ((crc >>> 8) ^^^ byte) % 256
  let x := x ^^^ (x >>> 4)
  ((crc <<< 8) ^^^ (x <<< 12) ^^^ (x <<< 5) ^^^ x) % 65536

/-- `crc16_ccitt_kermit` from `emv.rs`: polynomial 0x1021 (nibble-based
table-free reduction), initial value 0xFFFF. -/
def crc16_ccitt_kermit (data : List Nat) : Nat :=
  data.foldl crcStep 0xFFFF

/-- One uppercase hexadecimal digit (value 0-15) as an ASCII byte. -/
def hexDigit (n : Nat) : Nat :=
  if n < 10 then 48 + n else 55 + n

/-- `format!("{:04X}", crc)` for a `u16` value: exactly four uppercase
hex digits. -/
def toHex4 (n : Nat) : List Nat :=
  [hexDigit (n / 4096 % 16), hexDigit (n / 256 % 16), hexDigit (n / 16 % 16), hexDigit (n % 16)]

/-- `EmvData::validate_crc` from `emv.rs`: requires the last eight bytes to be
`"6304"` followed by the checksum, and compares the uppercased checksum suffix
against the CRC-16 of everything before it. -/
def validate_crc (raw : List Nat) : Except EmvError Unit :=
  let len := raw.length
  if len < 4 then .error .MalformedData
  else if len < 8 then .error .MalformedData
  else
    let checksumTag := (raw.drop (len - 8)).take 4
    if checksumTag ≠ bytes "6304" then .error .MissingChecksum
    else
      let provided := raw.drop (len - 4)
      let dataToCheck := raw.take (len - 4)
      let calculated := toHex4 (crc16_ccitt_kermit dataToCheck)
      if provided.map asciiUpper ≠ calculated then
        .error (.InvalidCrc calculated provided)
      else .ok ()

/-- Association-list stand-in for the `HashMap<String, String>` of `emv.rs`:
`insert` replaces the value of an existing key (as `HashMap::insert` does). -/
def insertKV (m : List (List Nat × List Nat)) (k v : List Nat) :
    List (List Nat × List Nat) :=
  if m.any (fun p => p.1 = k) then
    m.map (fun p => if p.1 = k then (k, v) else p)
  else m ++ [(k, v)]

/-- Key lookup / removal pair, modelling `HashMap::remove`. -/
def removeKV (m : List (List Nat × List Nat)) (k : List Nat) :
    Option (List Nat) × List (List Nat × List Nat) :=
  ((m.find? (fun p => p.1 = k)).map Prod.snd, m.filter (fun p => p.1 ≠ k))

/-- The TLV scan loop of `EmvData::parse` (step 2): reads records
tag(2) length(2) value(length), inserting each into the tag map; stops
when fewer than 4 characters remain, errors on a non-numeric length and
on a record extending past the input. -/
def tlvLoop (chars : List Nat) (tags : List (List Nat × List Nat)) :
    Except EmvError (List (List Nat × List Nat)) :=
  if _h4 : chars.length < 4 then .ok tags
  else
    let tag := chars.take 2
    let lenStr := (chars.drop 2).take 2
    match parseUsize lenStr with
    | none => .error .MalformedData
    | some valueLen =>
      if 4 + valueLen > chars.length then .error .MalformedData
      else
        let value := (chars.drop 4).take valueLen
        tlvLoop (chars.drop (4 + valueLen)) (insertKV tags tag value)
termination_by chars.length
decreasing_by
  simp only [List.length_drop]
  omega

/-- The record produced by `EmvData::parse` (`emv.rs`). -/
structure EmvData where
  raw_data : List Nat
  pfi : List Nat
  point_of_initiation : Option (List Nat)
  merchant_account_information : List (List Nat × List Nat)
  merchant_category_code : Option (List Nat)
  transaction_currency : Option (List Nat)
  transaction_amount : Option (List Nat)
  country_code : Option (List Nat)
  merchant_name : Option (List Nat)
  merchant_city : Option (List Nat)
  postal_code : Option (List Nat)
  additional_data : List (List Nat × List Nat)
  crc : List Nat
  unparsed_tags : List (List Nat × List Nat)
deriving DecidableEq, Repr

/-- The range-extraction pass of `EmvData::parse` (step 3): moves numeric tags
2-51 into merchant-account info, tag 62 into additional data. -/
def splitRanges (tags : List (List Nat × List Nat)) :
    List (List Nat × List Nat) × List (List Nat × List Nat) × List (List Nat × List Nat) :=
  let mai := tags.filter (fun p =>
    match parseUsize p.1 with
    | some id => decide (2 ≤ id ∧ id ≤ 51)
    | none => false)
  let addl := tags.filter (fun p =>
    match parseUsize p.1 with
    | some id => decide (id = 62)
    | none => false)
  let rest := tags.filter (fun p =>
    match parseUsize p.1 with
    | some id => decide (¬ (2 ≤ id ∧ id ≤ 51) ∧ id ≠ 62)
    | none => true)
  (mai, addl, rest)

/-- `EmvData::parse` from `emv.rs`: CRC validation first, then the TLV scan,
then mapping of the collected tags onto the `EmvData` record. -/
def parse (raw : List Nat) : Except EmvError EmvData := do
  let _ ← validate_crc raw
  let tags ← tlvLoop raw []
  let (pfiOpt, tags) := removeKV tags (bytes "00")
  match pfiOpt with
  | none => .error .MalformedData
  | some pfi =>
    let (crcOpt, tags) := removeKV tags (bytes "63")
    match crcOpt with
    | none => .error .MissingChecksum
    | some crc =>
      let (mai, addl, tags) := splitRanges tags
      let (poi, tags) := removeKV tags (bytes "01")
      let (mcc, tags) := removeKV tags (bytes "52")
      let (cur, tags) := removeKV tags (bytes "53")
      let (amt, tags) := removeKV tags (bytes "54")
      let (cc, tags) := removeKV tags (bytes "58")
      let (mname, tags) := removeKV tags (bytes "59")
      let (mcity, tags) := removeKV tags (bytes "60")
      let (postal, tags) := removeKV tags (bytes "61")
      .ok {
        raw_data := raw
        pfi := pfi
        point_of_initiation := poi
        merchant_account_information := mai
        merchant_category_code := mcc
        transaction_currency := cur
        transaction_amount := amt
        country_code := cc
        merchant_name := mname
        merchant_city := mcity
        postal_code := postal
        additional_data := addl
        crc := crc
        unparsed_tags := tags }

/-- `toHex4` always produces four bytes. -/
theorem toHex4_length (n : Nat) : (toHex4 n).length = 4 := rfl

/-- Hex digits are below the lowercase-letter range. -/
theorem hexDigit_lt (m : Nat) : hexDigit (m % 16) < 97 := by
  unfold hexDigit
  split <;> omega

/-- `asciiUpper` fixes bytes below `'a'`. -/
theorem asciiUpper_of_lt (b : Nat) (h : b < 97) : asciiUpper b = b := by
  unfold asciiUpper
  rw [if_neg]
  omega

/-- Uppercasing a `toHex4` output changes nothing. -/
theorem map_asciiUpper_toHex4 (n : Nat) : (toHex4 n).map asciiUpper = toHex4 n := by
  unfold toHex4
  simp only [List.map_cons, List.map_nil]
  rw [asciiUpper_of_lt _ (hexDigit_lt _), asciiUpper_of_lt _ (hexDigit_lt _),
    asciiUpper_of_lt _ (hexDigit_lt _), asciiUpper_of_lt _ (hexDigit_lt _)]

/-- Characterisation of a successful `validate_crc`. -/
theorem validate_crc_ok_iff (raw : List Nat) :
    validate_crc raw = .ok () ↔
      8 ≤ raw.length ∧ (raw.drop (raw.length - 8)).take 4 = bytes "6304" ∧
      (raw.drop (raw.length - 4)).map asciiUpper =
        toHex4 (crc16_ccitt_kermit (raw.take (raw.length - 4))) := by
  unfold validate_crc
  dsimp only
  split_ifs with h1 h2 h3 h4
  · simp only [reduceCtorEq, false_iff]
    intro h
    omega
  · simp only [reduceCtorEq, false_iff]
    intro h
    omega
  · simp only [reduceCtorEq, false_iff]
    intro h
    exact h3 h.2.1
  · simp only [reduceCtorEq, false_iff]
    intro h
    exact h4 h.2.2
  · simp only [true_iff]
    exact ⟨by omega, not_ne_iff.mp h3, not_ne_iff.mp h4⟩

/-- An error from `validate_crc` propagates unchanged through `parse`. -/
theorem parse_error_of_validate (raw : List Nat) (e : EmvError)
    (h : validate_crc raw = .error e) : parse raw = .error e := by
  unfold parse
  rw [h]
  rfl

/-- A successful `parse` has a successful CRC validation. -/
theorem validate_ok_of_parse (raw : List Nat) (d : EmvData)
    (h : parse raw = .ok d) : validate_crc raw = .ok () := by
  cases hv : validate_crc raw with
  | ok u => cases u; rfl
  | error e => rw [parse_error_of_validate raw e hv] at h; cases h

/-- `validate_crc` on fewer than eight bytes is a `MalformedData` error. -/
theorem validate_crc_short (raw : List Nat) (h : raw.length < 8) :
    validate_crc raw = .error .MalformedData := by
  unfold validate_crc
  dsimp only
  split_ifs with h1 h2 <;> first | rfl | omega

/-- `validate_crc` without the trailing `6304` tag is `MissingChecksum`. -/
theorem validate_crc_missing (raw : List Nat) (h8 : 8 ≤ raw.length)
    (htag : (raw.drop (raw.length - 8)).take 4 ≠ bytes "6304") :
    validate_crc raw = .error .MissingChecksum := by
  unfold validate_crc
  dsimp only
  split_ifs with h1 h2 h3 <;> first | rfl | omega | exact absurd h3 htag

/-- `validate_crc` with the tag present but a (case-insensitively) wrong
checksum is `InvalidCrc`. -/
theorem validate_crc_invalid (raw : List Nat) (h8 : 8 ≤ raw.length)
    (htag : (raw.drop (raw.length - 8)).take 4 = bytes "6304")
    (hmap : (raw.drop (raw.length - 4)).map asciiUpper ≠
      toHex4 (crc16_ccitt_kermit (raw.take (raw.length - 4)))) :
    validate_crc raw = .error
      (.InvalidCrc (toHex4 (crc16_ccitt_kermit (raw.take (raw.length - 4))))
        (raw.drop (raw.length - 4))) := by
  unfold validate_crc
  dsimp only
  split_ifs with h1 h2 h3 h4 <;>
    first | rfl | omega | exact absurd htag h3 | exact absurd h4 hmap

/-- Slice bookkeeping for a payload `B' ++ "6304" ++ hex` with a 4-byte
checksum `hex`. -/
theorem emv_slices (B' hex : List Nat) (hhex : hex.length = 4) :
    ((B' ++ bytes "6304") ++ hex).length = B'.length + 8 ∧
    ((((B' ++ bytes "6304") ++ hex).drop (((B' ++ bytes "6304") ++ hex).length - 8)).take 4
      = bytes "6304") ∧
    ((B' ++ bytes "6304") ++ hex).drop (((B' ++ bytes "6304") ++ hex).length - 4) = hex ∧
    ((B' ++ bytes "6304") ++ hex).take (((B' ++ bytes "6304") ++ hex).length - 4)
      = B' ++ bytes "6304" := by
  have h4 : (bytes "6304").length = 4 := by decide
  have hlen : ((B' ++ bytes "6304") ++ hex).length = B'.length + 8 := by
    simp [List.length_append, h4, hhex]
  refine ⟨hlen, ?_, ?_, ?_⟩
  · rw [hlen]
    have : B'.length + 8 - 8 = B'.length := by omega
    rw [this, List.append_assoc, List.drop_left]
    have h4' : (4 : Nat) = (bytes "6304").length := h4.symm
    rw [h4', List.take_left]
  · rw [hlen]
    have : B'.length + 8 - 4 = (B' ++ bytes "6304").length := by
      simp [List.length_append, h4]
    rw [this, List.drop_left]
  · rw [hlen]
    have : B'.length + 8 - 4 = (B' ++ bytes "6304").length := by
      simp [List.length_append, h4]
    rw [this, List.take_left]

end Emv

open Emv in
/-- Claim C3 (amended): for every byte string B that ends with the tag-length
header "6304", validating B followed by the 4-hex-digit uppercase CRC-16
(poly 0x1021, init 0xFFFF) of B succeeds; and changing any single character
of that 4-character checksum suffix to a character whose uppercase form
differs from the original character makes validation fail with InvalidCrc. -/
theorem C3_thm (B : List Nat) (hB : ∃ B', B = B' ++ bytes "6304") :
    validate_crc (B ++ toHex4 (crc16_ccitt_kermit B)) = .ok () ∧
    ∀ i, i < 4 → ∀ c : Nat,
      asciiUpper c ≠ (toHex4 (crc16_ccitt_kermit B)).getD i 0 →
      validate_crc (B ++ (toHex4 (crc16_ccitt_kermit B)).set i c) =
        .error (.InvalidCrc (toHex4 (crc16_ccitt_kermit B))
          ((toHex4 (crc16_ccitt_kermit B)).set i c)) := by
  obtain ⟨B', rfl⟩ := hB
  have hex4 := toHex4_length (crc16_ccitt_kermit (B' ++ bytes "6304"))
  obtain ⟨hlen, htag, hdrop, htake⟩ := emv_slices B' _ hex4
  constructor
  · rw [validate_crc_ok_iff]
    refine ⟨by omega, htag, ?_⟩
    rw [hdrop, htake, map_asciiUpper_toHex4]
  · intro i hi c hc
    have hset4 : ((toHex4 (crc16_ccitt_kermit (B' ++ bytes "6304"))).set i c).length = 4 := by
      rw [List.length_set]
      exact hex4
    obtain ⟨hlen2, htag2, hdrop2, htake2⟩ := emv_slices B' _ hset4
    have hmap : (((B' ++ bytes "6304") ++
          (toHex4 (crc16_ccitt_kermit (B' ++ bytes "6304"))).set i c).drop
            (((B' ++ bytes "6304") ++
              (toHex4 (crc16_ccitt_kermit (B' ++ bytes "6304"))).set i c).length - 4)).map
          asciiUpper ≠
        toHex4 (crc16_ccitt_kermit
          (((B' ++ bytes "6304") ++
            (toHex4 (crc16_ccitt_kermit (B' ++ bytes "6304"))).set i c).take
              (((B' ++ bytes "6304") ++
                (toHex4 (crc16_ccitt_kermit (B' ++ bytes "6304"))).set i c).length - 4))) := by
      rw [hdrop2, htake2]
      generalize hn : crc16_ccitt_kermit (B' ++ bytes "6304") = n at hc ⊢
      intro heq
      interval_cases i <;>
        simp only [toHex4, List.set, List.map_cons, List.map_nil, List.cons.injEq,
          and_true, List.getD_cons_zero, List.getD_cons_succ] at heq hc <;>
        first
          | exact hc heq.1
          | exact hc heq.2.1
          | exact hc heq.2.2.1
          | exact hc heq.2.2.2
    have hres := validate_crc_invalid _ (by omega) htag2 hmap
    rw [hdrop2, htake2] at hres
    exact hres

/-- Claim C3, counterexample to the claim as stated: appending the correct
CRC to the byte string B = "" does not validate (the `6304` tag header is
required, and short strings are MalformedData); and for B = "0002016304"
(CRC "AAE6"), changing the first checksum character 'A' (65) to the
different character 'a' (97) still validates, because the comparison
uppercases the provided checksum. -/
theorem C3_counterexample :
    Emv.validate_crc (([] : List Nat) ++ Emv.toHex4 (Emv.crc16_ccitt_kermit [])) =
      .error .MalformedData ∧
    Emv.validate_crc (bytes "0002016304" ++ [97, 65, 69, 54]) = .ok () ∧
    [97, 65, 69, 54] ≠
      Emv.toHex4 (Emv.crc16_ccitt_kermit (bytes "0002016304")) ∧
    (97 : Nat) ≠ 65 :=
  ⟨rfl, rfl, by decide, by decide⟩

/-- Claim C3, witness: the amended theorem applied to the concrete payload
body "0002016304". -/
theorem C3_witness :
    Emv.validate_crc (bytes "0002016304" ++
      Emv.toHex4 (Emv.crc16_ccitt_kermit (bytes "0002016304"))) = .ok () :=
  (C3_thm (bytes "0002016304") ⟨bytes "000201", by decide⟩).1

open Emv in
/-- Claim C4 (amended): `EmvData::parse` returns Ok only if the input ends
with the tag-63 length-04 record whose 4-hex value (case-insensitively)
equals the CRC-16 of all preceding characters; with the record present, a
checksum mismatch always yields InvalidCrc (never Ok); absence of the final
6304 record yields MissingChecksum for inputs of at least 8 characters,
while shorter inputs yield MalformedData. -/
theorem C4_thm (raw : List Nat) :
    (∀ d, parse raw = .ok d →
        8 ≤ raw.length ∧ (raw.drop (raw.length - 8)).take 4 = bytes "6304" ∧
        (raw.drop (raw.length - 4)).map asciiUpper =
          toHex4 (crc16_ccitt_kermit (raw.take (raw.length - 4)))) ∧
    (8 ≤ raw.length → (raw.drop (raw.length - 8)).take 4 = bytes "6304" →
      (raw.drop (raw.length - 4)).map asciiUpper ≠
          toHex4 (crc16_ccitt_kermit (raw.take (raw.length - 4))) →
      parse raw = .error (.InvalidCrc
        (toHex4 (crc16_ccitt_kermit (raw.take (raw.length - 4))))
        (raw.drop (raw.length - 4)))) ∧
    (8 ≤ raw.length → (raw.drop (raw.length - 8)).take 4 ≠ bytes "6304" →
      parse raw = .error .MissingChecksum) ∧
    (raw.length < 8 → parse raw = .error .MalformedData) := by
  refine ⟨?_, ?_, ?_, ?_⟩
  · intro d h
    exact (validate_crc_ok_iff raw).mp (validate_ok_of_parse raw d h)
  · intro h8 htag hmap
    exact parse_error_of_validate _ _ (validate_crc_invalid raw h8 htag hmap)
  · intro h8 htag
    exact parse_error_of_validate _ _ (validate_crc_missing raw h8 htag)
  · intro h
    exact parse_error_of_validate _ _ (validate_crc_short raw h)

/-- Claim C4, counterexample to the claim as stated: the empty string lacks
the final 6304 record, yet parsing yields MalformedData, not the
MissingChecksum the claim requires. -/
theorem C4_counterexample :
    Emv.parse ([] : List Nat) = .error .MalformedData ∧
    Emv.EmvError.MalformedData ≠ Emv.EmvError.MissingChecksum :=
  ⟨rfl, by decide⟩

/-- Claim C4, witness: the amended theorem applied to the concrete payload
"00020163040000", whose checksum "0000" mismatches the real CRC "AAE6". -/
theorem C4_witness :
    Emv.parse (bytes "00020163040000") =
      .error (.InvalidCrc (bytes "AAE6") (bytes "0000")) := by
  rw [(C4_thm (bytes "00020163040000")).2.1 (by decide) (by decide) (by decide)]
  rfl

/-! ## More string helpers used by `payment.rs` and `lib.rs` -/

/-- Models `str::find(char)`: byte index of the first occurrence. -/
def findByte (d : Nat) : List Nat → Option Nat
  | [] => none
  | b :: rest =>
      if b = d then some 0 else (findByte d rest).map (· + 1)

/-- Models `str::split(char)`: the list of delimiter-separated segments
(an empty input yields one empty segment, like Rust's `split`; prepending a
non-delimiter extends the first segment, which always exists). -/
def splitBy (d : Nat) : List Nat → List (List Nat)
  | [] => [[]]
  | b :: rest =>
      let s := splitBy d rest
      if b = d then [] :: s
      else (b :: s.headD []) :: s.tail

/-- Models `str::find(&str)` for a pattern string: first byte index at which
the pattern occurs as a contiguous sub-list. -/
def findSub (pat : List Nat) : List Nat → Option Nat
  | [] => if pat = [] then some 0 else none
  | b :: rest =>
      if pat.isPrefixOf (b :: rest) then some 0
      else (findSub pat rest).map (· + 1)

/-- `List.isPrefixOf` is the model of `str::starts_with`. -/
def startsWith (s pat : List Nat) : Bool := pat.isPrefixOf s

/-- `str::contains(&str)` = some occurrence of the pattern's bytes. -/
def containsSub (s pat : List Nat) : Bool := (findSub pat s).isSome

/-- Value of one ASCII hex digit, if it is one. -/
def hexVal (b : Nat) : Option Nat :=
  if 48 ≤ b ∧ b ≤ 57 then some (b - 48)
  else if 65 ≤ b ∧ b ≤ 70 then some (b - 55)
  else if 97 ≤ b ∧ b ≤ 102 then some (b - 87)
  else none

/-- Percent-decoding of `urlencoding::decode`: `%XY` hex pairs become the
byte XY, malformed percent sequences are kept verbatim. -/
def percentDecode : List Nat → List Nat
  | [] => []
  | 37 :: h1 :: h2 :: rest =>
      match hexVal h1, hexVal h2 with
      | some v1, some v2 => (v1 * 16 + v2) :: percentDecode rest
      | _, _ => 37 :: percentDecode (h1 :: h2 :: rest)
  | b :: rest => b :: percentDecode rest

/-- `urlencoding::decode(value).unwrap_or_default()`: percent-decode, and
fall back to the empty string when the decoded bytes are not valid UTF-8. -/
def urlDecodeOrDefault (s : List Nat) : List Nat :=
  let d := percentDecode s
  if validUtf8 d then d else []

/-- Models `"<digits…>".parse::<f64>()` idealised over `Rat`: optional sign,
decimal mantissa with optional fractional part, optional decimal exponent
(grammar of `f64::from_str` for finite decimal literals; the non-finite
literals `inf`/`NaN`, which no payment payload uses, are out of the model's
domain and rejected; the rounding of the decimal to binary conversion is
idealised away). -/
def parseF64 (s : List Nat) : Option Rat :=
  let sign : Rat := if s.headD 0 = 45 then -1 else 1
  let s1 := if s.headD 0 = 43 ∨ s.headD 0 = 45 then s.tail else s
  let intPart := s1.takeWhile (isDigitByte ·)
  let s2 := s1.dropWhile (isDigitByte ·)
  let fracPart := if s2.headD 0 = 46 then s2.tail.takeWhile (isDigitByte ·) else []
  let s3 := if s2.headD 0 = 46 then s2.tail.dropWhile (isDigitByte ·) else s2
  if intPart.length + fracPart.length = 0 then none
  else
    let mant : Rat := (digitsVal intPart : Rat) +
      (digitsVal fracPart : Rat) / ((10 : Rat) ^ fracPart.length)
    match s3 with
    | [] => some (sign * mant)
    | e :: rest =>
        if e = 101 ∨ e = 69 then
          let esign : Int := if rest.headD 0 = 45 then -1 else 1
          let e1 := if rest.headD 0 = 43 ∨ rest.headD 0 = 45 then rest.tail else rest
          if e1 ≠ [] ∧ e1.all (isDigitByte ·) then
            some (sign * mant * (10 : Rat) ^ (esign * digitsVal e1))
          else none
        else none

/-! ## `payment.rs` : payment format parsing -/

namespace Payment

/-- `PaymentFormat` from `payment.rs`. -/
inductive PaymentFormat where
  | EmvQR
  | SbpRussia
  | StRussia
  | Unknown
deriving DecidableEq, Repr

/-- `PaymentInfo` from `payment.rs`; the `f64` amount is idealised as `Rat`. -/
structure PaymentInfo where
  format : PaymentFormat
  payee_name : Option (List Nat) := none
  payee_id : Option (List Nat) := none
  account : Option (List Nat) := none
  bank : Option (List Nat) := none
  bic : Option (List Nat) := none
  amount : Option Rat := none
  currency : Option (List Nat) := none
  purpose : Option (List Nat) := none
  extra : List (List Nat × List Nat) := []
deriving DecidableEq, Repr

/-- One query-parameter step of `PaymentParser::parse_sbp`'s loop. -/
def sbpParam (info : PaymentInfo) (param : List Nat) : PaymentInfo :=
  match findByte 61 param with
  | none => info
  | some eqPos =>
      let key := param.take eqPos
      let value := param.drop (eqPos + 1)
      let keyLower := key.map asciiLower
      if keyLower = bytes "sum" then
        match parseF64 value with
        | some kopeks => { info with amount := some (kopeks / 100) }
        | none => info
      else if keyLower = bytes "cur" then { info with currency := some value }
      else if keyLower = bytes "bank" then { info with bank := some value }
      else if keyLower = bytes "name" then
        { info with payee_name := some (urlDecodeOrDefault value) }
      else if keyLower = bytes "purpose" then
        { info with purpose := some (urlDecodeOrDefault value) }
      else { info with extra := Emv.insertKV info.extra key value }

/-- `PaymentParser::parse_sbp` from `payment.rs`. -/
def parse_sbp (content : List Nat) : Option PaymentInfo :=
  let info0 : PaymentInfo :=
    { format := .SbpRussia, currency := some (bytes "RUB") }
  let info1 :=
    match findByte 63 content with
    | some queryStart =>
        let query := content.drop (queryStart + 1)
        (splitBy 38 query).foldl sbpParam info0
    | none => info0
  let info2 :=
    match findSub (bytes "nspk.ru/") content with
    | some pathStart =>
        let path := content.drop (pathStart + 8)
        let idEnd := (findByte 63 path).getD path.length
        { info1 with payee_id := some (path.take idEnd) }
    | none => info1
  some info2

/-- One `Key=Value` step of `PaymentParser::parse_st`'s loop. -/
def stPart (info : PaymentInfo) (part : List Nat) : PaymentInfo :=
  match findByte 61 part with
  | none => info
  | some eqPos =>
      let key := part.take eqPos
      let value := part.drop (eqPos + 1)
      if key = bytes "Name" then { info with payee_name := some value }
      else if key = bytes "PersonalAcc" then { info with account := some value }
      else if key = bytes "BankName" then { info with bank := some value }
      else if key = bytes "BIC" then { info with bic := some value }
      else if key = bytes "Sum" then
        match parseF64 value with
        | some kopeks => { info with amount := some (kopeks / 100) }
        | none => info
      else if key = bytes "Purpose" then { info with purpose := some value }
      else if key = bytes "PayeeINN" then { info with payee_id := some value }
      else { info with extra := Emv.insertKV info.extra key value }

/-- `PaymentParser::parse_st` from `payment.rs` (ST.00012 pipe format). -/
def parse_st (content : List Nat) : Option PaymentInfo :=
  let info0 : PaymentInfo :=
    { format := .StRussia, currency := some (bytes "RUB") }
  some ((splitBy 124 content).foldl stPart info0)

/-- `PaymentParser::currency_code_to_string`. -/
def currency_code_to_string (code : List Nat) : List Nat :=
  if code = bytes "643" then bytes "RUB"
  else if code = bytes "840" then bytes "USD"
  else if code = bytes "978" then bytes "EUR"
  else if code = bytes "156" then bytes "CNY"
  else if code = bytes "392" then bytes "JPY"
  else if code = bytes "826" then bytes "GBP"
  else code

/-- One TLV record dispatch of `PaymentParser::parse_emv`: note that tag 54
stores the parsed value as-is (`value.parse().ok()`), with no minor-unit
division. -/
def emvTag (info : PaymentInfo) (tag value : List Nat) : PaymentInfo :=
  if tag = bytes "00" then info
  else if tag = bytes "01" then info
  else if tag = bytes "52" then
    { info with extra := Emv.insertKV info.extra (bytes "mcc") value }
  else if tag = bytes "53" then
    { info with currency := some (currency_code_to_string value) }
  else if tag = bytes "54" then { info with amount := parseF64 value }
  else if tag = bytes "58" then
    { info with extra := Emv.insertKV info.extra (bytes "country") value }
  else if tag = bytes "59" then { info with payee_name := some value }
  else if tag = bytes "60" then
    { info with extra := Emv.insertKV info.extra (bytes "city") value }
  else if startsWith tag (bytes "26") ∨ startsWith tag (bytes "27") then
    { info with account := some value }
  else info

/-- The TLV loop of `PaymentParser::parse_emv`: reads tag(2) length(2)
value(length) records; a non-UTF-8 slice or non-numeric length aborts the
whole parse with `None` (the `.ok()?` operators), a record extending past
the end merely stops the loop. -/
def emvLoop (remaining : List Nat) (info : PaymentInfo) : Option PaymentInfo :=
  if _h : remaining.length < 4 then some info
  else
    let tagBytes := remaining.take 2
    let lenBytes := (remaining.drop 2).take 2
    if ¬ validUtf8 tagBytes then none
    else if ¬ validUtf8 lenBytes then none
    else match parseUsize lenBytes with
    | none => none
    | some len =>
      if 4 + len > remaining.length then some info
      else
        let value := (remaining.drop 4).take len
        if ¬ validUtf8 value then none
        else emvLoop (remaining.drop (4 + len)) (emvTag info tagBytes value)
termination_by remaining.length
decreasing_by
  simp only [List.length_drop]
  omega

/-- `PaymentParser::parse_emv` from `payment.rs`. -/
def parse_emv (content : List Nat) : Option PaymentInfo :=
  emvLoop content { format := .EmvQR }

/-- `PaymentParser::parse` from `payment.rs`: format detection by prefix. -/
def parse (content : List Nat) : Option PaymentInfo :=
  if startsWith content (bytes "https://qr.nspk.ru") ∨
      startsWith content (bytes "http://qr.nspk.ru") then
    parse_sbp content
  else if startsWith content (bytes "ST.") ∨ startsWith content (bytes "st.") then
    parse_st content
  else if startsWith content (bytes "00") ∧ content.length > 50 then
    parse_emv content
  else none

/-- `PaymentParser::relevance_score` from `payment.rs`, with the `f32`
score constants as exact rationals. -/
def relevance_score (content : List Nat) : Rat :=
  let contentLower := content.map asciiLower
  if containsSub contentLower (bytes "qr.nspk.ru") then 1
  else if startsWith content (bytes "00") ∧ content.length > 50 then 95/100
  else if startsWith contentLower (bytes "st.") then 9/10
  else if containsSub contentLower (bytes "pay") then 6/10
  else if containsSub contentLower (bytes "payment") then 6/10
  else if containsSub contentLower (bytes "оплат") then 6/10
  else if containsSub contentLower (bytes "платёж") then 6/10
  else if containsSub contentLower (bytes "платеж") then 6/10
  else if containsSub contentLower (bytes "перевод") then 6/10
  else if containsSub contentLower (bytes "bank") ∨
      containsSub contentLower (bytes "банк") then 4/10
  else 0

end Payment

/-! ### Lemmas for symbolic payment payloads -/

/-- `splitBy` on a list without the delimiter is one segment. -/
theorem splitBy_no_delim (d : Nat) (l : List Nat) (h : ∀ b ∈ l, b ≠ d) :
    splitBy d l = [l] := by
  induction l with
  | nil => rfl
  | cons b rest ih =>
      have hb : b ≠ d := h b (List.mem_cons_self ..)
      have hr : ∀ x ∈ rest, x ≠ d := fun x hx => h x (List.mem_cons_of_mem _ hx)
      simp [splitBy, hb, ih hr]

/-- `parseUsize` on a non-empty all-digit string yields its decimal value. -/
theorem parseUsize_digits (l : List Nat) (h1 : l ≠ []) (h2 : l.all (isDigitByte ·)) :
    parseUsize l = some (digitsVal l) := by
  have hhead : 48 ≤ l.headD 0 ∧ l.headD 0 ≤ 57 := by
    cases l with
    | nil => exact absurd rfl h1
    | cons b rest =>
        have := List.all_eq_true.mp h2 b (List.mem_cons_self ..)
        simpa [isDigitByte] using this
  have h43 : ¬ l.headD 0 = 43 := by omega
  unfold parseUsize
  rw [if_neg h1, if_neg h43, if_pos ⟨h1, h2⟩]

/-- The two-digit length field `[48 + n / 10, 48 + n % 10]` written by the
symbolic EMV payloads parses back to `n` for `n < 100`. -/
theorem parseUsize_pad2 (n : Nat) (h : n < 100) :
    parseUsize [48 + n / 10, 48 + n % 10] = some n := by
  have d1 : isDigitByte (48 + n / 10) = true := by
    simp [isDigitByte]
    omega
  have d2 : isDigitByte (48 + n % 10) = true := by
    simp [isDigitByte]
    omega
  rw [parseUsize_digits _ (by simp) (by simp [d1, d2])]
  simp [digitsVal]
  omega

/-- `takeWhile isDigitByte` keeps an all-digit list whole. -/
theorem takeWhile_digits (l : List Nat) (h : l.all (isDigitByte ·)) :
    l.takeWhile (isDigitByte ·) = l := by
  induction l with
  | nil => rfl
  | cons b rest ih =>
      simp only [List.all_cons, Bool.and_eq_true] at h
      simp [List.takeWhile_cons, h.1, ih h.2]

/-- `dropWhile isDigitByte` exhausts an all-digit list. -/
theorem dropWhile_digits (l : List Nat) (h : l.all (isDigitByte ·)) :
    l.dropWhile (isDigitByte ·) = [] := by
  induction l with
  | nil => rfl
  | cons b rest ih =>
      simp only [List.all_cons, Bool.and_eq_true] at h
      simp [List.dropWhile_cons, h.1, ih h.2]

/-- `parseF64` on a non-empty all-digit string is its exact numeric value. -/
theorem parseF64_digits (l : List Nat) (h1 : l ≠ []) (h2 : l.all (isDigitByte ·)) :
    parseF64 l = some ((digitsVal l : Nat) : Rat) := by
  have hd : ∀ b ∈ l, 48 ≤ b ∧ b ≤ 57 := by
    intro b hb
    have := List.all_eq_true.mp h2 b hb
    simpa [isDigitByte] using this
  have hhead : 48 ≤ l.headD 0 ∧ l.headD 0 ≤ 57 := by
    cases l with
    | nil => exact absurd rfl h1
    | cons b rest => exact hd b (List.mem_cons_self ..)
  have h45 : ¬ l.headD 0 = 45 := by omega
  have h4345 : ¬ (l.headD 0 = 43 ∨ l.headD 0 = 45) := by
    intro h
    rcases h with h | h <;> omega
  have h46 : ¬ ([] : List Nat).headD 0 = 46 := by decide
  unfold parseF64
  rw [if_neg h45, if_neg h4345]
  dsimp only
  rw [takeWhile_digits l h2, dropWhile_digits l h2, if_neg h46, if_neg h46]
  rw [if_neg (by
    simp only [List.length_nil, Nat.add_zero]
    intro hlen
    exact h1 (List.eq_nil_of_length_eq_zero hlen))]
  simp [digitsVal]

/-- `emvLoop` on an empty remainder returns the accumulated info. -/
theorem emvLoop_nil (info : Payment.PaymentInfo) :
    Payment.emvLoop [] info = some info := by
  unfold Payment.emvLoop
  rfl

/-- `emvLoop` consumes one complete ASCII TLV record
`tag(2) len(2) value(len)` and recurses on the rest. -/
theorem emvLoop_record (t1 t2 d1 d2 : Nat) (value rest : List Nat)
    (info : Payment.PaymentInfo)
    (ht1 : t1 < 128) (ht2 : t2 < 128) (hd1 : d1 < 128) (hd2 : d2 < 128)
    (hlen : parseUsize [d1, d2] = some value.length)
    (hv : ∀ b ∈ value, b < 128) :
    Payment.emvLoop (t1 :: t2 :: d1 :: d2 :: (value ++ rest)) info =
      Payment.emvLoop rest (Payment.emvTag info [t1, t2] value) := by
  have hlength : (t1 :: t2 :: d1 :: d2 :: (value ++ rest)).length
      = 4 + value.length + rest.length := by
    simp [List.length_append]
    omega
  rw [Payment.emvLoop]
  rw [dif_neg (by omega)]
  have htake2 : (t1 :: t2 :: d1 :: d2 :: (value ++ rest)).take 2 = [t1, t2] := rfl
  have hdroptake : ((t1 :: t2 :: d1 :: d2 :: (value ++ rest)).drop 2).take 2 = [d1, d2] := rfl
  rw [htake2, hdroptake]
  rw [if_neg (by
    rw [validUtf8_of_ascii [t1, t2] (by
      intro b hb
      simp at hb
      rcases hb with rfl | rfl <;> omega)]
    simp)]
  rw [if_neg (by
    rw [validUtf8_of_ascii [d1, d2] (by
      intro b hb
      simp at hb
      rcases hb with rfl | rfl <;> omega)]
    simp)]
  rw [hlen]
  dsimp only
  rw [if_neg (by omega)]
  have hdrop4 : (t1 :: t2 :: d1 :: d2 :: (value ++ rest)).drop 4 = value ++ rest := rfl
  rw [hdrop4, List.take_left]
  rw [if_neg (by
    rw [validUtf8_of_ascii value hv]
    simp)]
  have hdropall : (t1 :: t2 :: d1 :: d2 :: (value ++ rest)).drop (4 + value.length)
      = rest := by
    have h1 : 4 + value.length = value.length + 4 := by omega
    rw [h1]
    show (value ++ rest).drop value.length = rest
    exact List.drop_left value rest
  rw [hdropall]

/-- A fixed 46-character EMV TLV prefix (tags 00, 59, 60, 58) used by the
symbolic tag-54 payloads; it guarantees the over-50-characters EMV routing
condition of `PaymentParser::parse`. -/
def emvHeader : List Nat :=
  bytes "000201" ++ (bytes "5916" ++ List.replicate 16 48) ++
    (bytes "6010" ++ List.replicate 10 48) ++ bytes "5802RU"

/-- The trailing tag-54 record `54` + two-digit length + value `V`. -/
def tail54 (V : List Nat) : List Nat :=
  53 :: 52 :: (48 + V.length / 10) :: (48 + V.length % 10) :: V

/-- An EMV payload whose final TLV record is tag 54 with value `V`. -/
def emv54Payload (V : List Nat) : List Nat := emvHeader ++ tail54 V

/-- An ST.00012 pipe payload whose `Sum` field is `V`. -/
def stSumPayload (V : List Nat) : List Nat := bytes "ST.00012|Sum=" ++ V

/-- Digits are ASCII. -/
theorem digits_ascii (V : List Nat) (h : V.all (isDigitByte ·)) :
    ∀ b ∈ V, b < 128 := by
  intro b hb
  have := List.all_eq_true.mp h b hb
  simp [isDigitByte] at this
  omega

/-- `PaymentParser::parse` on an `emv54Payload` parses the tag-54 value
verbatim as the amount: no minor-unit division happens on the EMV path. -/
theorem emv54_amount (V : List Nat) (h1 : V ≠ []) (h2 : V.all (isDigitByte ·))
    (h3 : V.length < 100) :
    (Payment.parse (emv54Payload V)).bind (fun i => i.amount)
      = some ((digitsVal V : Nat) : Rat) := by
  have hVascii := digits_ascii V h2
  have hlen46 : emvHeader.length = 46 := by decide
  have htl : (tail54 V).length = 4 + V.length := by
    unfold tail54
    simp
    omega
  have hplen : (emv54Payload V).length = 50 + V.length := by
    unfold emv54Payload
    rw [List.length_append, hlen46, htl]
    omega
  have hVpos : 0 < V.length := List.length_pos.mpr h1
  have c1 : startsWith (emv54Payload V) (bytes "https://qr.nspk.ru") = false := rfl
  have c2 : startsWith (emv54Payload V) (bytes "http://qr.nspk.ru") = false := rfl
  have c3 : startsWith (emv54Payload V) (bytes "ST.") = false := rfl
  have c4 : startsWith (emv54Payload V) (bytes "st.") = false := rfl
  have c5 : startsWith (emv54Payload V) (bytes "00") = true := rfl
  unfold Payment.parse
  rw [if_neg (by simp [c1, c2]), if_neg (by simp [c3, c4]),
    if_pos (by refine ⟨c5, ?_⟩; omega)]
  unfold Payment.parse_emv
  have L0 : emv54Payload V = 48 :: 48 :: 48 :: 50 :: (bytes "01" ++
      ((bytes "5916" ++ List.replicate 16 48) ++
        ((bytes "6010" ++ List.replicate 10 48) ++ (bytes "5802RU" ++ tail54 V)))) := rfl
  have L1 : (bytes "5916" ++ List.replicate 16 48) ++
      ((bytes "6010" ++ List.replicate 10 48) ++ (bytes "5802RU" ++ tail54 V)) =
      53 :: 57 :: 49 :: 54 :: (List.replicate 16 48 ++
        ((bytes "6010" ++ List.replicate 10 48) ++ (bytes "5802RU" ++ tail54 V))) := rfl
  have L2 : (bytes "6010" ++ List.replicate 10 48) ++ (bytes "5802RU" ++ tail54 V) =
      54 :: 48 :: 49 :: 48 :: (List.replicate 10 48 ++ (bytes "5802RU" ++ tail54 V)) := rfl
  have L3 : bytes "5802RU" ++ tail54 V =
      53 :: 56 :: 48 :: 50 :: (bytes "RU" ++ tail54 V) := rfl
  have L4 : tail54 V = 53 :: 52 :: (48 + V.length / 10) :: (48 + V.length % 10) ::
      (V ++ []) := by
    unfold tail54
    rw [List.append_nil]
  have T1 : Payment.emvTag { format := .EmvQR } [48, 48] (bytes "01") =
      { format := .EmvQR } := rfl
  have T2 : Payment.emvTag { format := .EmvQR } [53, 57] (List.replicate 16 48) =
      { format := .EmvQR, payee_name := some (List.replicate 16 48) } := rfl
  have T3 : Payment.emvTag
      { format := .EmvQR, payee_name := some (List.replicate 16 48) }
      [54, 48] (List.replicate 10 48) =
      { format := .EmvQR, payee_name := some (List.replicate 16 48),
        extra := [(bytes "city", List.replicate 10 48)] } := rfl
  have T4 : Payment.emvTag
      { format := .EmvQR, payee_name := some (List.replicate 16 48),
        extra := [(bytes "city", List.replicate 10 48)] }
      [53, 56] (bytes "RU") =
      { format := .EmvQR, payee_name := some (List.replicate 16 48),
        extra := [(bytes "city", List.replicate 10 48),
          (bytes "country", bytes "RU")] } := rfl
  have T5 : Payment.emvTag
      { format := .EmvQR, payee_name := some (List.replicate 16 48),
        extra := [(bytes "city", List.replicate 10 48),
          (bytes "country", bytes "RU")] } [53, 52] V =
      { format := .EmvQR, payee_name := some (List.replicate 16 48),
        extra := [(bytes "city", List.replicate 10 48),
          (bytes "country", bytes "RU")],
        amount := parseF64 V } := rfl
  rw [L0,
    emvLoop_record 48 48 48 50 (bytes "01") _ { format := .EmvQR }
      (by omega) (by omega) (by omega) (by omega) (by decide) (by decide),
    T1, L1,
    emvLoop_record 53 57 49 54 (List.replicate 16 48) _ { format := .EmvQR }
      (by omega) (by omega) (by omega) (by omega) (by decide) (by decide),
    T2, L2,
    emvLoop_record 54 48 49 48 (List.replicate 10 48) _
      { format := .EmvQR, payee_name := some (List.replicate 16 48) }
      (by omega) (by omega) (by omega) (by omega) (by decide) (by decide),
    T3, L3,
    emvLoop_record 53 56 48 50 (bytes "RU") _
      { format := .EmvQR, payee_name := some (List.replicate 16 48),
        extra := [(bytes "city", List.replicate 10 48)] }
      (by omega) (by omega) (by omega) (by omega) (by decide) (by decide),
    T4, L4,
    emvLoop_record 53 52 (48 + V.length / 10) (48 + V.length % 10) V []
      { format := .EmvQR, payee_name := some (List.replicate 16 48),
        extra := [(bytes "city", List.replicate 10 48),
          (bytes "country", bytes "RU")] }
      (by omega) (by omega) (by omega) (by omega)
      (parseUsize_pad2 V.length h3) hVascii,
    T5, emvLoop_nil, parseF64_digits V h1 h2]
  rfl

/-- `PaymentParser::parse` on an `stSumPayload` divides the `Sum` value by
100 (minor-unit convention of the ST pipe scheme). -/
theorem stSum_amount (V : List Nat) (h1 : V ≠ []) (h2 : V.all (isDigitByte ·)) :
    (Payment.parse (stSumPayload V)).bind (fun i => i.amount)
      = some ((digitsVal V : Rat) / 100) := by
  have c1 : startsWith (stSumPayload V) (bytes "https://qr.nspk.ru") = false := rfl
  have c2 : startsWith (stSumPayload V) (bytes "http://qr.nspk.ru") = false := rfl
  have c3 : startsWith (stSumPayload V) (bytes "ST.") = true := rfl
  unfold Payment.parse
  rw [if_neg (by simp [c1, c2]), if_pos (by simp [c3])]
  unfold Payment.parse_st
  have hdV : ∀ b ∈ V, b ≠ 124 := by
    intro b hb
    have := List.all_eq_true.mp h2 b hb
    simp [isDigitByte] at this
    omega
  have hndV : splitBy 124 V = [V] := splitBy_no_delim 124 V hdV
  have LS : stSumPayload V =
      83 :: 84 :: 46 :: 48 :: 48 :: 48 :: 49 :: 50 :: 124 ::
        83 :: 117 :: 109 :: 61 :: V := rfl
  have hsplit : splitBy 124 (stSumPayload V) =
      [[83, 84, 46, 48, 48, 48, 49, 50], 83 :: 117 :: 109 :: 61 :: V] := by
    rw [LS]
    simp [splitBy, hndV]
  rw [hsplit]
  have hseg1 : Payment.stPart
      { format := .StRussia, currency := some (bytes "RUB") }
      [83, 84, 46, 48, 48, 48, 49, 50] =
      { format := .StRussia, currency := some (bytes "RUB") } := rfl
  have hF : findByte 61 (83 :: 117 :: 109 :: 61 :: V) = some 3 := rfl
  have hseg2 : Payment.stPart
      { format := .StRussia, currency := some (bytes "RUB") }
      (83 :: 117 :: 109 :: 61 :: V) =
      { format := .StRussia, currency := some (bytes "RUB"),
        amount := some ((digitsVal V : Rat) / 100) } := by
    unfold Payment.stPart
    rw [hF]
    dsimp only
    have hkey : (83 :: 117 :: 109 :: 61 :: V).take 3 = [83, 117, 109] := rfl
    have hval : (83 :: 117 :: 109 :: 61 :: V).drop (3 + 1) = V := rfl
    rw [hkey, hval]
    rw [if_neg (by decide), if_neg (by decide), if_neg (by decide),
      if_neg (by decide), if_pos (by decide)]
    rw [parseF64_digits V h1 h2]
  simp only [List.foldl_cons, List.foldl_nil, hseg1, hseg2]
  rfl

open Payment in
/-- Claim C2 (amended): for a digit string V, the ST pipe scheme parses
`Sum=V` to amount V/100 (minor-unit convention), but the EMV path stores the
tag-54 value verbatim: the parsed amount is V, with no division by 100. -/
theorem C2_thm (V : List Nat) (h1 : V ≠ []) (h2 : V.all (isDigitByte ·))
    (h3 : V.length < 100) :
    (Payment.parse (stSumPayload V)).bind (fun i => i.amount)
        = some ((digitsVal V : Rat) / 100) ∧
    (Payment.parse (emv54Payload V)).bind (fun i => i.amount)
        = some ((digitsVal V : Rat)) :=
  ⟨stSum_amount V h1 h2, emv54_amount V h1 h2 h3⟩

/-- Claim C2, counterexample to the claim as stated: the EMV payload with
tag-54 value "500" parses to amount 500, not the 500/100 = 5 that the claim's
minor-unit convention requires. -/
theorem C2_counterexample :
    (Payment.parse (emv54Payload (bytes "500"))).bind (fun i => i.amount)
        = some (500 : Rat) ∧
    (500 : Rat) ≠ 500 / 100 := by
  constructor
  · have h := emv54_amount (bytes "500") (by decide) (by decide) (by decide)
    have hv : (digitsVal (bytes "500") : Nat) = 500 := by decide
    rw [h, hv]
    norm_cast
  · norm_num

/-- Claim C2, witness: the amended theorem at the concrete value "250000"
(2500.00 in minor units): the ST path gives 2500, the EMV path 250000. -/
theorem C2_witness :
    (Payment.parse (stSumPayload (bytes "250000"))).bind (fun i => i.amount)
        = some (2500 : Rat) ∧
    (Payment.parse (emv54Payload (bytes "250000"))).bind (fun i => i.amount)
        = some (250000 : Rat) := by
  have h := C2_thm (bytes "250000") (by decide) (by decide) (by decide)
  have hv : (digitsVal (bytes "250000") : Nat) = 250000 := by decide
  rw [hv] at h
  refine ⟨?_, by rw [h.2]; norm_cast⟩
  rw [h.1]
  norm_num

/-! ## The grayscale image model -/

/-- `image::GrayImage`: a width x height grid of 8-bit samples.  `pix x y`
is `get_pixel(x, y).0[0]` for in-bounds coordinates; pixel values below 256
wherever a claim needs the `u8` range (stated as a hypothesis). -/
@[ext]
structure Img where
  width : Nat
  height : Nat
  pix : Nat → Nat → Nat

/-- All pixel samples of an image are `u8` values. -/
def Img.Bounded (img : Img) : Prop := ∀ x y, img.pix x y ≤ 255

/-! ## `decoding.rs` : the decode cascade -/

namespace Decoding

/-- `ErrorCorrectionLevel` from `decoding.rs`. -/
inductive ECLevel where
  | L
  | M
  | Q
  | H
  | Unknown
deriving DecidableEq, Repr

/-- `DecodedQR` from `decoding.rs`. -/
structure DecodedQR where
  content : List Nat
  error_correction : ECLevel
  version : Option Nat
  encoding : List Nat
deriving DecidableEq, Repr

/-- `DecodeError` from `decoding.rs`. -/
inductive DecodeError where
  | NotFound
  | DecodeFailed (detail : List Nat)
  | InvalidImage (detail : List Nat)
  | ChecksumError
deriving DecidableEq, Repr

/-- `QRDecoder::invert_image`: every pixel `p` becomes `255 - p`. -/
def invert_image (img : Img) : Img :=
  ⟨img.width, img.height, fun x y => 255 - img.pix x y⟩

/-- `QRDecoder::add_white_padding`: a white (255) border of `padding`
pixels on every side, with the source copied into the centre. -/
def add_white_padding (img : Img) (padding : Nat) : Img :=
  ⟨img.width + padding * 2, img.height + padding * 2, fun x y =>
    if padding ≤ x ∧ x < img.width + padding ∧ padding ≤ y ∧ y < img.height + padding
    then img.pix (x - padding) (y - padding) else 255⟩

/-- `QRDecoder::apply_threshold`: hard binarisation at `threshold`. -/
def apply_threshold (img : Img) (threshold : Nat) : Img :=
  ⟨img.width, img.height, fun x y => if img.pix x y < threshold then 0 else 255⟩

/-- `QRDecoder::apply_contrast_stretch`: min/max over the grid, then
`(val - min) / (max - min) * 255` truncated to `u8` (the `f32` arithmetic is
idealised as exact rationals with a final floor, matching the `as u8` cast
of the non-negative result). -/
def apply_contrast_stretch (img : Img) : Img :=
  let vals := (List.range img.height).flatMap (fun y =>
    (List.range img.width).map (fun x => img.pix x y))
  let minVal := vals.foldl (fun acc v => if v < acc then v else acc) 255
  let maxVal := vals.foldl (fun acc v => if v > acc then v else acc) 0
  if minVal ≥ maxVal then img
  else
    ⟨img.width, img.height, fun x y =>
      (((img.pix x y - minVal : Nat) : Rat) / ((maxVal - minVal : Nat) : Rat)
        * 255).floor.toNat⟩

/-- `QRDecoder::apply_sharpen`: 3x3 kernel `[[0,-1,0],[-1,5,-1],[0,-1,0]]`
on interior pixels, clamped to 0..255; the border keeps the source values. -/
def apply_sharpen (img : Img) : Img :=
  ⟨img.width, img.height, fun x y =>
    if 1 ≤ x ∧ x < img.width - 1 ∧ 1 ≤ y ∧ y < img.height - 1 then
      let v : Int := (img.pix x y : Int) * 5 - (img.pix x (y - 1) : Int)
        - (img.pix x (y + 1) : Int) - (img.pix (x - 1) y : Int)
        - (img.pix (x + 1) y : Int)
      (max 0 (min v 255)).toNat
    else img.pix x y⟩

/-- `QRDecoder::preprocess_image`: contrast stretch then sharpen. -/
def preprocess_image (img : Img) : Img :=
  apply_sharpen (apply_contrast_stretch img)

/-- `QRDecoder::calculate_otsu_threshold`: histogram-based between-class
variance maximisation over levels 0..255 (the `f64` arithmetic is idealised
as exact rationals; all quantities are ratios of integers). -/
def calculate_otsu_threshold (img : Img) : Nat :=
  let pixels := (List.range img.height).flatMap (fun y =>
    (List.range img.width).map (fun x => img.pix x y))
  let histogram := (List.range 256).map (fun i => (pixels.count i : Nat))
  let total : Rat := (img.width * img.height : Nat)
  let sum : Rat := ((List.range 256).map
    (fun i => i * pixels.count i)).sum
  let step := fun (st : Rat × Rat × Rat × Nat) (t : Nat) =>
    let (wB, sumB, maxVar, thr) := st
    let c : Rat := (histogram.getD t 0 : Nat)
    let wB' := wB + c
    if wB' = 0 then (wB', sumB, maxVar, thr)
    else
      let wF := total - wB'
      if wF = 0 then (wB', sumB, maxVar, thr)
      else
        let sumB' := sumB + (t : Rat) * c
        let mB := sumB' / wB'
        let mF := (sum - sumB') / wF
        let variance := wB' * wF * (mB - mF) * (mB - mF)
        if variance > maxVar then (wB', sumB', variance, t)
        else (wB', sumB', maxVar, thr)
  ((List.range 256).foldl step (0, 0, 0, 128)).2.2.2

/-- `QRDecoder::downscale_image`: box-average downscale by `factor`. -/
def downscale_image (img : Img) (factor : Nat) : Img :=
  ⟨img.width / factor, img.height / factor, fun x y =>
    (((List.range factor).flatMap (fun dy =>
      (List.range factor).map (fun dx => img.pix (x * factor + dx) (y * factor + dy)))).sum)
      / (factor * factor)⟩

/-- The out-of-repo pieces the cascade calls: the two codec providers
(`rqrr`, `rxing`, external crates tried in this order by every rung) and
`rotate_image`, whose floating-point trigonometric resampling has no exact
rational form; everything else in the cascade is modelled concretely. -/
structure DecodeEnv where
  rqrr : Img → Option DecodedQR
  rxing : Img → Option DecodedQR
  rotate : Img → Rat → Img

/-- One rung's provider pair: rqrr first, rxing as fallback, matching the
`decode_with_rqrr` / `decode_with_rxing` order of every rung. -/
def tryBoth (E : DecodeEnv) (img : Img) : Option DecodedQR :=
  match E.rqrr img with
  | some r => some r
  | none => E.rxing img

/-- The image transforms attempted by `QRDecoder::decode`, as data. -/
inductive Xform where
  | asIs
  | inverted
  | preprocessed
  | invPreprocessed
  | padded
  | invPadded
  | rotated (angle : Rat)
  | thresholded (t : Nat)
  | downscaled
deriving DecidableEq, Repr

/-- The image each `Xform` denotes, for a given source image. -/
def interp (E : DecodeEnv) (img : Img) : Xform → Img
  | .asIs => img
  | .inverted => invert_image img
  | .preprocessed => preprocess_image img
  | .invPreprocessed => invert_image (preprocess_image img)
  | .padded => add_white_padding img 20
  | .invPadded => add_white_padding (invert_image img) 20
  | .rotated a => E.rotate img a
  | .thresholded t => apply_threshold img t
  | .downscaled => downscale_image img 2

/-- The rotation angles attempted by rung 5 of `QRDecoder::decode`
(`let angles = [30.0, 45.0, 60.0]`, each tried as `+angle` only). -/
def rotationAngles : List Rat := [30, 45, 60]

/-- The ordered ladder of transform attempts of `QRDecoder::decode`
(`try_inverted` is always true: `QRDecoder::new` is the only constructor).
The downscale rung is appended only when the image exceeds 400px in either
dimension. -/
def ladder (img : Img) : List Xform :=
  [.asIs, .inverted, .preprocessed, .invPreprocessed, .padded, .invPadded] ++
    rotationAngles.map .rotated ++
    [.thresholded (calculate_otsu_threshold img), .thresholded 64, .thresholded 96,
      .thresholded 128, .thresholded 160, .thresholded 192] ++
    (if 400 < img.width ∨ 400 < img.height then [.downscaled] else [])

/-- `QRDecoder::decode` from `decoding.rs`, transcribed as the literal
early-return control flow of the source: each rung tries rqrr then rxing
and returns the first success; after the last rung the result is
`Err(NotFound)`. -/
def decode (E : DecodeEnv) (img : Img) : Except DecodeError DecodedQR :=
  match tryBoth E img with
  | some r => .ok r
  | none =>
  match tryBoth E (invert_image img) with
  | some r => .ok r
  | none =>
  match tryBoth E (preprocess_image img) with
  | some r => .ok r
  | none =>
  match tryBoth E (invert_image (preprocess_image img)) with
  | some r => .ok r
  | none =>
  match tryBoth E (add_white_padding img 20) with
  | some r => .ok r
  | none =>
  match tryBoth E (add_white_padding (invert_image img) 20) with
  | some r => .ok r
  | none =>
  match tryBoth E (E.rotate img 30) with
  | some r => .ok r
  | none =>
  match tryBoth E (E.rotate img 45) with
  | some r => .ok r
  | none =>
  match tryBoth E (E.rotate img 60) with
  | some r => .ok r
  | none =>
  match tryBoth E (apply_threshold img (calculate_otsu_threshold img)) with
  | some r => .ok r
  | none =>
  match tryBoth E (apply_threshold img 64) with
  | some r => .ok r
  | none =>
  match tryBoth E (apply_threshold img 96) with
  | some r => .ok r
  | none =>
  match tryBoth E (apply_threshold img 128) with
  | some r => .ok r
  | none =>
  match tryBoth E (apply_threshold img 160) with
  | some r => .ok r
  | none =>
  match tryBoth E (apply_threshold img 192) with
  | some r => .ok r
  | none =>
  if 400 < img.width ∨ 400 < img.height then
    match tryBoth E (downscale_image img 2) with
    | some r => .ok r
    | none => .error .NotFound
  else .error .NotFound

/-- First-success evaluator over a list of provider outcomes. -/
def chain : List (Option DecodedQR) → Except DecodeError DecodedQR
  | [] => .error .NotFound
  | o :: rest =>
    match o with
    | some r => .ok r
    | none => chain rest

theorem chain_eq (l : List (Option DecodedQR)) :
    chain l = match l.findSome? id with
      | some r => .ok r
      | none => .error .NotFound := by
  induction l with
  | nil => rfl
  | cons o rest ih =>
      cases o with
      | some r => simp [chain, List.findSome?]
      | none => simpa [chain, List.findSome?] using ih

/-- `decode` is the first-success evaluation of the `ladder` attempt list:
the nested early-return control flow of `decoding.rs` collapses to a single
ordered scan. -/
theorem decode_eq_chain (E : DecodeEnv) (img : Img) :
    decode E img = chain (((ladder img).map (interp E img)).map (tryBoth E)) := by
  by_cases h : 400 < img.width ∨ 400 < img.height
  · unfold decode ladder
    rw [if_pos h, if_pos h]
    rfl
  · unfold decode ladder
    rw [if_neg h, if_neg h]
    rfl

/-- `decode` as the first `some` of the ladder's provider outcomes. -/
theorem decode_eq_findSome (E : DecodeEnv) (img : Img) :
    decode E img = match ((ladder img).map (interp E img)).findSome? (tryBoth E) with
      | some r => .ok r
      | none => .error .NotFound := by
  rw [decode_eq_chain, chain_eq, List.findSome?_map]
  rfl

/-- `decode` succeeds as soon as some ladder attempt succeeds. -/
theorem decode_isOk_of_attempt (E : DecodeEnv) (img : Img) (x : Xform)
    (hx : x ∈ ladder img) (hs : (tryBoth E (interp E img x)).isSome) :
    (decode E img).isOk = true := by
  rw [decode_eq_findSome]
  cases hf : ((ladder img).map (interp E img)).findSome? (tryBoth E) with
  | some r => rfl
  | none =>
      exfalso
      rw [List.findSome?_eq_none_iff] at hf
      have := hf (interp E img x) (List.mem_map_of_mem _ hx)
      rw [this] at hs
      cases hs

end Decoding

open Decoding in
/-- Claim C5: `QRDecoder::decode` evaluates its transform/provider attempts
in the fixed deterministic order of the `ladder` list, returns the first
successful decode, returns `Err(NotFound)` iff every attempt fails, and
includes the 50% box-average downscale rung exactly when the input exceeds
400 pixels in width or height. -/
theorem C5_thm (E : DecodeEnv) (img : Img) :
    (∀ r, decode E img = .ok r ↔
      ((ladder img).map (interp E img)).findSome? (tryBoth E) = some r) ∧
    (decode E img = .error .NotFound ↔
      ∀ x ∈ ladder img, tryBoth E (interp E img x) = none) ∧
    (Xform.downscaled ∈ ladder img ↔ (400 < img.width ∨ 400 < img.height)) := by
  refine ⟨?_, ?_, ?_⟩
  · intro r
    rw [decode_eq_findSome]
    cases hf : ((ladder img).map (interp E img)).findSome? (tryBoth E) with
    | some r' => simp
    | none => simp
  · rw [decode_eq_findSome]
    cases hf : ((ladder img).map (interp E img)).findSome? (tryBoth E) with
    | some r' =>
        simp only [reduceCtorEq, false_iff]
        intro hall
        rw [List.findSome?_eq_none_iff.mpr
          (by
            intro i hi
            rw [List.mem_map] at hi
            obtain ⟨x, hx, rfl⟩ := hi
            exact hall x hx)] at hf
        cases hf
    | none =>
        simp only [true_iff]
        rw [List.findSome?_eq_none_iff] at hf
        intro x hx
        exact hf (interp E img x) (List.mem_map_of_mem _ hx)
  · by_cases h : 400 < img.width ∨ 400 < img.height
    · simp [ladder, h, rotationAngles]
    · simp [ladder, h, rotationAngles]

open Decoding in
/-- Claim C6: on the code as written, rung 5 of `QRDecoder::decode` attempts
only the three positive rotations +30, +45 and +60 degrees; the negative
angles -30, -45 and -60 promised by the spec (and by the code's own comment
"Пробуем 45, 30, 60 градусов (и отрицательные)") are never attempted. -/
theorem C6_thm (img : Img) :
    (∀ E : DecodeEnv, decode E img =
      match ((ladder img).map (interp E img)).findSome? (tryBoth E) with
        | some r => .ok r
        | none => .error .NotFound) ∧
    (ladder img).filterMap
        (fun x => match x with | .rotated a => some a | _ => none) = [30, 45, 60] ∧
    Xform.rotated (-30) ∉ ladder img ∧
    Xform.rotated (-45) ∉ ladder img ∧
    Xform.rotated (-60) ∉ ladder img := by
  refine ⟨fun E => decode_eq_findSome E img, ?_, ?_, ?_, ?_⟩ <;>
    by_cases h : 400 < img.width ∨ 400 < img.height <;>
    simp [ladder, h, rotationAngles] <;> norm_num

open Decoding in
/-- Claim C7: the cascade is inversion-symmetric: if a provider decodes the
image unmodified (rung 1), `decode` succeeds on the pixel-inverted image
(through rung 2, because inversion is an involution on 8-bit samples), and
conversely `decode` succeeds on the original whenever a provider decodes the
inverted image unmodified. -/
theorem C7_thm (E : DecodeEnv) (img : Img) (hb : img.Bounded) :
    ((tryBoth E img).isSome → (decode E (invert_image img)).isOk = true) ∧
    ((tryBoth E (invert_image img)).isSome → (decode E img).isOk = true) := by
  have hinv : invert_image (invert_image img) = img := by
    cases img with
    | mk w h p =>
        unfold invert_image
        simp only [Img.mk.injEq, true_and]
        funext x y
        have := hb x y
        simp only [Img.Bounded] at this
        omega
  constructor
  · intro hs
    refine decode_isOk_of_attempt E (invert_image img) .inverted ?_ ?_
    · simp [ladder]
    · show (tryBoth E (invert_image (invert_image img))).isSome
      rw [hinv]
      exact hs
  · intro hs
    refine decode_isOk_of_attempt E img .inverted ?_ ?_
    · simp [ladder]
    · exact hs

/-- A 1x1 probe image with pixel value 7. -/
def probe1x1 : Img := ⟨1, 1, fun _ _ => 7⟩

/-- A trivial decoded payload for provider stubs. -/
def payload0 : Decoding.DecodedQR := ⟨[], .Unknown, none, []⟩

/-- A provider environment whose rqrr succeeds exactly on images whose
top-left pixel is 7. -/
def envPix7 : Decoding.DecodeEnv :=
  ⟨fun i => if i.pix 0 0 = 7 then some payload0 else none, fun _ => none, fun i _ => i⟩

/-- A provider environment whose rqrr succeeds exactly on images whose
top-left pixel is 248. -/
def envPix248 : Decoding.DecodeEnv :=
  ⟨fun i => if i.pix 0 0 = 248 then some payload0 else none, fun _ => none, fun i _ => i⟩

/-- Claim C7, witness: both directions of the inversion symmetry applied to
the 1x1 probe image, with providers that succeed on the original (pixel 7)
resp. on the inverted image (pixel 248). -/
theorem C7_witness :
    (Decoding.decode envPix7 (Decoding.invert_image probe1x1)).isOk = true ∧
    (Decoding.decode envPix248 probe1x1).isOk = true :=
  ⟨(C7_thm envPix7 probe1x1 (fun _ _ => by show (7 : Nat) ≤ 255; decide)).1 rfl,
   (C7_thm envPix248 probe1x1 (fun _ _ => by show (7 : Nat) ≤ 255; decide)).2 rfl⟩

/-! ## `detection.rs` : finder-pattern detection

The `f32` quantities of the source (module sizes, tolerances, distances)
are idealised as exact rationals.  Euclidean distances, which the source
compares through `sqrt`, are represented by their squares; every comparison
of the source between non-negative quantities is rewritten as the equivalent
comparison of squares (documented at each site). -/

namespace Detection

/-- `DetectorConfig` from `detection.rs`. -/
structure DetectorConfig where
  min_size : Nat
  max_size : Nat
  threshold : Nat
  ratio_tolerance : Rat

/-- `DetectorConfig::default()`. -/
def DetectorConfig.default : DetectorConfig :=
  ⟨20, 2000, 128, 1/2⟩

/-- `FinderPattern` from `detection.rs` (`module_size` is `f32`, idealised). -/
structure FinderPattern where
  center_x : Nat
  center_y : Nat
  module_size : Rat
deriving DecidableEq, Repr

/-- `DetectedQR` from `detection.rs`. -/
structure DetectedQR where
  bbox : List Nat
  corners : List (Nat × Nat)
  image : Img
  confidence : Rat

/-- The five run-length counters of the scanline state machine. -/
structure RunCounts where
  c0 : Nat
  c1 : Nat
  c2 : Nat
  c3 : Nat
  c4 : Nat
deriving DecidableEq, Repr

def RunCounts.get (s : RunCounts) : Nat → Nat
  | 0 => s.c0
  | 1 => s.c1
  | 2 => s.c2
  | 3 => s.c3
  | _ => s.c4

def RunCounts.bump (s : RunCounts) : Nat → RunCounts
  | 0 => { s with c0 := s.c0 + 1 }
  | 1 => { s with c1 := s.c1 + 1 }
  | 2 => { s with c2 := s.c2 + 1 }
  | 3 => { s with c3 := s.c3 + 1 }
  | _ => { s with c4 := s.c4 + 1 }

def RunCounts.set1 (s : RunCounts) : Nat → RunCounts
  | 0 => { s with c0 := 1 }
  | 1 => { s with c1 := 1 }
  | 2 => { s with c2 := 1 }
  | 3 => { s with c3 := 1 }
  | _ => { s with c4 := 1 }

def RunCounts.total (s : RunCounts) : Nat := s.c0 + s.c1 + s.c2 + s.c3 + s.c4

/-- `QRDetector::check_ratio`: the five run lengths approximate 1:1:3:1:1;
`module_size = total / 7`, each run within `module_size * ratio_tolerance`
of its expected multiple (exact rational arithmetic). -/
def checkPattern (cfg : DetectorConfig) (s : RunCounts) : Bool :=
  let total := s.total
  if total < 7 then false
  else
    let module_size : Rat := (total : Rat) / 7
    let tolerance := module_size * cfg.ratio_tolerance
    let expected : List Rat := [1, 1, 3, 1, 1]
    ([0, 1, 2, 3, 4] : List Nat).all (fun i =>
      decide (|((s.get i : Rat)) - expected.getD i 0 * module_size| ≤ tolerance))

/-- One vertical step of `QRDetector::verify_vertical`'s scan: count runs of
alternating colour, stopping after the fifth run. -/
def verticalStep (cfg : DetectorConfig) (img : Img) (center_x : Nat)
    (st : RunCounts × Nat × Bool) (y : Nat) : RunCounts × Nat × Bool :=
  let (vc, state, stopped) := st
  if stopped then (vc, state, stopped)
  else
    let is_black := img.pix center_x y < cfg.threshold
    let expected_black := state % 2 = 0
    if is_black = expected_black then (vc.bump state, state, false)
    else
      let state' := state + 1
      if state' ≥ 5 then (vc, state', true)
      else (vc.set1 state', state', false)

/-- `QRDetector::verify_vertical` from `detection.rs`. -/
def verify_vertical (cfg : DetectorConfig) (img : Img) (center_x center_y : Nat)
    (h_counts : RunCounts) : Bool :=
  let total_h := h_counts.total
  let check_range := total_h / 2
  let start_y := center_y - check_range
  let end_y := min (center_y + check_range) (img.height - 1)
  let ys := (List.range (end_y + 1 - start_y)).map (· + start_y)
  let (vc, _, _) := ys.foldl (verticalStep cfg img center_x) (⟨0, 0, 0, 0, 0⟩, 0, false)
  checkPattern cfg vc

/-- One horizontal step of the 5-slot run-length state machine of
`QRDetector::find_finder_patterns` (the body of the inner `x` loop). -/
def horizStep (cfg : DetectorConfig) (img : Img) (y : Nat)
    (st : RunCounts × Nat × List FinderPattern) (x : Nat) :
    RunCounts × Nat × List FinderPattern :=
  let (sc, cs, ps) := st
  let is_black := img.pix x y < cfg.threshold
  if is_black then
    if cs % 2 = 1 then
      let cs' := cs + 1
      if cs' ≥ 5 then
        let ps' :=
          if checkPattern cfg sc then
            let total_width := sc.total
            let center_x := x - total_width / 2
            if verify_vertical cfg img center_x y sc then
              ps ++ [⟨center_x, y, (total_width : Rat) / 7⟩]
            else ps
          else ps
        let sc' : RunCounts := ⟨sc.c2, sc.c3, sc.c4, 1, 0⟩
        (sc'.bump 3, 3, ps')
      else ((sc.bump cs'), cs', ps)
    else (sc.bump cs, cs, ps)
  else
    if cs % 2 = 0 then
      let cs' := min (cs + 1) 4
      (sc.bump cs', cs', ps)
    else (sc.bump cs, cs, ps)

/-- Squared distance between two pattern centres (the source compares the
`f32` Euclidean distance; all its comparisons are between non-negative
quantities, so comparing squares is equivalent). -/
def distSq (p q : FinderPattern) : Rat :=
  ((p.center_x : Rat) - q.center_x) ^ 2 + ((p.center_y : Rat) - q.center_y) ^ 2

/-- The merge test of `QRDetector::merge_patterns`:
`dist < p.module_size * 2` , i.e. `distSq < (p.module_size * 2)^2`
(module sizes are positive by construction: `total / 7` with `total ≥ 7`). -/
def closeTo (p q : FinderPattern) : Bool :=
  distSq p q < (p.module_size * 2) ^ 2

/-- Centroid of a first-seen pattern and its absorbed neighbours, with the
`f32 as u32` truncation modelled as the floor of the non-negative rational. -/
def mergeCentroid (p : FinderPattern) (close : List FinderPattern) : FinderPattern :=
  let count : Rat := 1 + close.length
  let sum_x : Rat := (p.center_x : Rat) + (close.map (fun q => (q.center_x : Rat))).sum
  let sum_y : Rat := (p.center_y : Rat) + (close.map (fun q => (q.center_y : Rat))).sum
  let sum_size : Rat := p.module_size + (close.map (fun q => q.module_size)).sum
  ⟨(sum_x / count).floor.toNat, (sum_y / count).floor.toNat, sum_size / count⟩

/-- The used-flag loop of `QRDetector::merge_patterns`, written with a fuel
argument (`fuel ≥ length` always holds on the call below, so the zero-fuel
branch is unreachable; the fuel only makes the recursion structural). -/
def mergeAux : Nat → List FinderPattern → List FinderPattern
  | 0, _ => []
  | _, [] => []
  | fuel + 1, p :: rest =>
      mergeCentroid p (rest.filter (fun q => closeTo p q)) ::
        mergeAux fuel (rest.filter (fun q => ¬ closeTo p q))

/-- `QRDetector::merge_patterns` from `detection.rs`. -/
def merge_patterns (ps : List FinderPattern) : List FinderPattern :=
  mergeAux ps.length ps

/-- `QRDetector::find_finder_patterns`: scan every row with the run-length
state machine, then merge near-duplicate hits. -/
def find_finder_patterns (cfg : DetectorConfig) (img : Img) : List FinderPattern :=
  let raw := (List.range img.height).foldl (fun ps y =>
    ((List.range img.width).foldl (horizStep cfg img y) (⟨0, 0, 0, 0, 0⟩, 0, ps)).2.2) []
  merge_patterns raw

/-- `QRDetector::is_valid_qr_group`: module sizes agree within 50% of their
average, and the three pairwise distances split into two near-equal sides
and a diagonal close to `side * 1.414`.  With `a ≤ b ≤ c` the squared sorted
distances, the source's conditions on the square roots
`(sqrt b - sqrt a) < 0.3 * sqrt a` and
`|sqrt c - 1.414 * sqrt a| < 0.3 * (1.414 * sqrt a)` are equivalent to
`b < 1.69 * a` and `0.97970404 * a < c < 3.37897924 * a`
(squaring monotone on non-negatives; 1.69 = 1.3^2,
0.97970404 = (0.7 * 1.414)^2, 3.37897924 = (1.3 * 1.414)^2). -/
def is_valid_qr_group (p1 p2 p3 : FinderPattern) : Bool :=
  let sizes : List Rat := [p1.module_size, p2.module_size, p3.module_size]
  let avg := sizes.sum / 3
  if sizes.any (fun s => |s - avg| > avg * (1/2)) then false
  else
    let d12 := distSq p1 p2
    let d23 := distSq p2 p3
    let d13 := distSq p1 p3
    let a := min d12 (min d23 d13)
    let c := max d12 (max d23 d13)
    let b := d12 + d23 + d13 - a - c
    decide (b < (169/100) * a ∧
      (97970404/100000000) * a < c ∧ c < (337897924/100000000) * a)

/-- `QRDetector::group_patterns`: all index-ordered triples that pass
`is_valid_qr_group`. -/
def group_patterns (ps : List FinderPattern) :
    List (FinderPattern × FinderPattern × FinderPattern) :=
  if ps.length < 3 then []
  else
    (List.range ps.length).flatMap (fun i =>
      (List.range ps.length).flatMap (fun j =>
        (List.range ps.length).filterMap (fun k =>
          if i < j ∧ j < k then
            let p1 := ps.getD i ⟨0, 0, 0⟩
            let p2 := ps.getD j ⟨0, 0, 0⟩
            let p3 := ps.getD k ⟨0, 0, 0⟩
            if is_valid_qr_group p1 p2 p3 then some (p1, p2, p3) else none
          else none)))

/-- `QRDetector::extract_qr`: bounding box of the three centres with a
20-pixel margin, clamped to the image, size-filtered, and cropped. -/
def extract_qr (cfg : DetectorConfig) (img : Img)
    (g : FinderPattern × FinderPattern × FinderPattern) : Option DetectedQR :=
  let (p1, p2, p3) := g
  let cxs := [p1.center_x, p2.center_x, p3.center_x]
  let cys := [p1.center_y, p2.center_y, p3.center_y]
  let min_x : Int := (cxs.foldl min p1.center_x : Nat) - 20
  let max_x : Int := (cxs.foldl max p1.center_x : Nat) + 20
  let min_y : Int := (cys.foldl min p1.center_y : Nat) - 20
  let max_y : Int := (cys.foldl max p1.center_y : Nat) + 20
  let x := (max min_x 0).toNat
  let y := (max min_y 0).toNat
  let w := min (max_x - min_x).toNat (img.width - x)
  let h := min (max_y - min_y).toNat (img.height - y)
  if w < cfg.min_size ∨ h < cfg.min_size ∨ w > cfg.max_size ∨ h > cfg.max_size then
    none
  else
    some ⟨[x, y, w, h],
      [(x, y), (x + w, y), (x + w, y + h), (x, y + h)],
      ⟨w, h, fun dx dy => img.pix (x + dx) (y + dy)⟩,
      4/5⟩

/-- The whole-image fallback region pushed by `QRDetector::detect` when no
group-based region survives. -/
def wholeRegion (img : Img) : DetectedQR :=
  ⟨[0, 0, img.width, img.height],
    [(0, 0), (img.width, 0), (img.width, img.height), (0, img.height)],
    img, 1/2⟩

/-- `QRDetector::detect` from `detection.rs`. -/
def detect (cfg : DetectorConfig) (img : Img) : List DetectedQR :=
  let patterns := find_finder_patterns cfg img
  let groups := group_patterns patterns
  let results := groups.filterMap (extract_qr cfg img)
  if results.isEmpty then [wholeRegion img] else results

/-- `detect` never returns the empty list. -/
theorem detect_ne_nil (cfg : DetectorConfig) (img : Img) : detect cfg img ≠ [] := by
  unfold detect
  dsimp only
  cases h : (group_patterns (find_finder_patterns cfg img)).filterMap
      (extract_qr cfg img) with
  | nil => simp
  | cons a rest => simp [h]

/-- When no finder-pattern triple is accepted, `detect` is exactly the
whole-image fallback region. -/
theorem detect_whole_of_no_groups (cfg : DetectorConfig) (img : Img)
    (hg : group_patterns (find_finder_patterns cfg img) = []) :
    detect cfg img = [wholeRegion img] := by
  unfold detect
  dsimp only
  rw [hg]
  rfl

end Detection

open Detection in
/-- Claim C10: `QRDetector::detect` always returns a non-empty list, and
whenever no finder-pattern triple is accepted it returns exactly one region
covering the whole image: bbox `[0, 0, width, height]`, corners at the
image's four corners, confidence 0.5 (the `wholeRegion` record). -/
theorem C10_thm (cfg : DetectorConfig) (img : Img) :
    detect cfg img ≠ [] ∧
    (group_patterns (find_finder_patterns cfg img) = [] →
      detect cfg img = [wholeRegion img]) :=
  ⟨detect_ne_nil cfg img, detect_whole_of_no_groups cfg img⟩

/-- A 4x4 uniform-gray (128) image: with the default threshold 128 every
pixel reads as white, so no finder pattern can complete. -/
def uniform4 : Img := ⟨4, 4, fun _ _ => 128⟩

/-- Claim C10, witness: on the uniform 4x4 image no triple is accepted and
`detect` returns exactly the whole-image fallback region. -/
theorem C10_witness :
    Detection.detect Detection.DetectorConfig.default uniform4 ≠ [] ∧
    Detection.detect Detection.DetectorConfig.default uniform4 =
      [Detection.wholeRegion uniform4] :=
  ⟨(C10_thm Detection.DetectorConfig.default uniform4).1,
   (C10_thm Detection.DetectorConfig.default uniform4).2 (by decide)⟩

/-! ## `lib.rs` : content classification and the scan pipeline -/

/-- `ContentType` from `lib.rs`. -/
inductive ContentType where
  | Text
  | Url
  | VCard
  | WiFi
  | Payment
  | Email
  | Phone
  | Sms
  | Geo
  | Unknown
deriving DecidableEq, Repr

/-- `ContentType::detect` from `lib.rs`: prefix/substring dispatch on the
lowercased content (EMV check uses the original content and its length). -/
def ContentType.detect (content : List Nat) : ContentType :=
  let lower := content.map asciiLower
  if startsWith lower (bytes "http://") ∨ startsWith lower (bytes "https://") then
    if containsSub lower (bytes "qr.nspk.ru") ∨ containsSub lower (bytes "pay") then
      .Payment
    else .Url
  else if startsWith lower (bytes "begin:vcard") then .VCard
  else if startsWith lower (bytes "wifi:") then .WiFi
  else if startsWith lower (bytes "mailto:") then .Email
  else if startsWith lower (bytes "tel:") then .Phone
  else if startsWith lower (bytes "smsto:") ∨ startsWith lower (bytes "sms:") then .Sms
  else if startsWith lower (bytes "geo:") then .Geo
  else if startsWith content (bytes "00") ∧ content.length > 50 then .Payment
  else if startsWith lower (bytes "st.") then .Payment
  else .Text

/-- `QRError` from `lib.rs`. -/
inductive QRError where
  | ImageProcessing (msg : List Nat)
  | Detection (msg : List Nat)
  | Decode (e : Decoding.DecodeError)
  | InvalidFormat (msg : List Nat)
deriving DecidableEq, Repr

/-- `QRResult` from `lib.rs`. -/
structure QRResult where
  content : List Nat
  bbox : List Nat
  content_type : ContentType
  payment : Option Payment.PaymentInfo
  confidence : Rat
deriving DecidableEq, Repr

/-- `ScanResult` from `lib.rs`. -/
structure ScanResult where
  qr_codes : List QRResult
  best_payment : Option Nat
  processing_time_ms : Nat
deriving DecidableEq, Repr

/-- The per-detection body of `QRScanner::scan_image`'s loop: on a
successful decode, classify, optionally payment-parse, update the best
relevance score with the detection-enumeration index, and push the result;
a failed decode leaves the state unchanged. -/
def scanStep (E : Decoding.DecodeEnv)
    (acc : List QRResult × Rat × Option Nat) (p : Nat × Detection.DetectedQR) :
    List QRResult × Rat × Option Nat :=
  let (codes, bscore, bidx) := acc
  let (idx, det) := p
  match Decoding.decode E det.image with
  | .ok dec =>
      let ct := ContentType.detect dec.content
      let pay := if ct = ContentType.Payment then Payment.parse dec.content else none
      let score := Payment.relevance_score dec.content
      if score > bscore then
        (codes ++ [⟨dec.content, det.bbox, ct, pay, det.confidence⟩], score, some idx)
      else
        (codes ++ [⟨dec.content, det.bbox, ct, pay, det.confidence⟩], bscore, bidx)
  | .error _ => (codes, bscore, bidx)

/-- `QRScanner::scan_image` from `lib.rs`, for the scanner built by
`QRScanner::new()` (default detector configuration).  The preprocessor
(`ImageProcessor::process`, which delegates to external `image`/`imageproc`
routines: resize, gaussian blur, contrast stretch, adaptive threshold) is
the opaque parameter `process`.  The body never constructs an error:
decoding failures only skip entries. -/
def scan_image (process : Img → Img) (E : Decoding.DecodeEnv) (gray : Img) :
    Except QRError ScanResult :=
  let processed := process gray
  let detected := Detection.detect Detection.DetectorConfig.default processed
  let acc := detected.enum.foldl (scanStep E) ([], 0, none)
  let qr_codes := acc.1
  let best_idx := acc.2.2
  if qr_codes.isEmpty then
    match Decoding.decode E processed with
    | .ok dec =>
        let ct := ContentType.detect dec.content
        let pay := if ct = ContentType.Payment then Payment.parse dec.content else none
        let codes := qr_codes ++
          [⟨dec.content, [0, 0, processed.width, processed.height], ct, pay, 1⟩]
        let best_idx' :=
          if best_idx.isNone ∧ ct = ContentType.Payment then some 0 else best_idx
        .ok ⟨codes, best_idx', 0⟩
    | .error _ => .ok ⟨qr_codes, best_idx, 0⟩
  else .ok ⟨qr_codes, best_idx, 0⟩

open Decoding in
/-- Claim C8: a scan call never fails: `scan_image` returns `Ok` for every
input, and when no image derived from the input is decodable by either
codec provider (the meaning of "contains no recognizable QR code") the
result is `Ok` with an empty `qr_codes` list, no best payment, and zero
processing time.  Totality of the model is the no-panic guarantee. -/
theorem C8_thm (process : Img → Img) (E : DecodeEnv) (gray : Img) :
    ((∀ i, tryBoth E i = none) → scan_image process E gray = .ok ⟨[], none, 0⟩) ∧
    (scan_image process E gray).isOk = true := by
  constructor
  · intro hfail
    have hdec : ∀ i, decode E i = .error .NotFound := by
      intro i
      rw [decode_eq_findSome]
      rw [List.findSome?_eq_none_iff.mpr (fun a _ => hfail a)]
    have hfold : ∀ (l : List (Nat × Detection.DetectedQR)),
        l.foldl (scanStep E) ([], 0, none) = ([], 0, none) := by
      intro l
      induction l with
      | nil => rfl
      | cons p rest ih =>
          obtain ⟨idx, det⟩ := p
          rw [List.foldl_cons]
          have hstep : scanStep E ([], 0, none) (idx, det) = ([], 0, none) := by
            unfold scanStep
            dsimp only
            rw [hdec]
          rw [hstep, ih]
    unfold scan_image
    dsimp only
    rw [hfold, hdec]
    rfl
  · unfold scan_image
    dsimp only
    split
    · split <;> rfl
    · rfl

/-- The all-failing provider environment. -/
def envNone : Decoding.DecodeEnv := ⟨fun _ => none, fun _ => none, fun i _ => i⟩

/-- A 100x100 uniform-gray (128) image (Scenario A of the spec). -/
def uniform100 : Img := ⟨100, 100, fun _ _ => 128⟩

/-- Claim C8, witness: scanning the 100x100 uniform-gray image with
providers that decode nothing returns `Ok` with an empty result list. -/
theorem C8_witness :
    scan_image id envNone uniform100 = .ok ⟨[], none, 0⟩ :=
  (C8_thm id envNone uniform100).1 (fun _ => rfl)

/-- The provider environment whose rqrr decodes every image to the text
"Invoice payment" (any QR code carrying that text produces this provider
behaviour on its region). -/
def envInvoice : Decoding.DecodeEnv :=
  ⟨fun _ => some ⟨bytes "Invoice payment", .Unknown, none, []⟩,
   fun _ => none, fun i _ => i⟩

/-- An 8x8 uniform-gray (128) image: finder-pattern detection finds nothing
and falls back to the single whole-image region. -/
def uniform8 : Img := ⟨8, 8, fun _ _ => 128⟩

/-- Claim C1: `scan_image` can return a `ScanResult` whose `best_payment`
index points at an entry whose `content_type` is `Text`, not `Payment`:
the relevance score 0.6 of the keyword "pay" in the decoded text
"Invoice payment" sets the best-payment index even though the classifier
types that content as plain text, violating the spec's invariant. -/
theorem C1_thm :
    scan_image id envInvoice uniform8 =
      .ok ⟨[⟨bytes "Invoice payment", [0, 0, 8, 8], .Text, none, 1/2⟩], some 0, 0⟩ ∧
    ContentType.Text ≠ ContentType.Payment := by
  constructor
  · have hdet : Detection.detect Detection.DetectorConfig.default (id uniform8) =
        [Detection.wholeRegion uniform8] :=
      Detection.detect_whole_of_no_groups _ _ (by decide)
    unfold scan_image
    dsimp only
    rw [hdet]
    have henum : [Detection.wholeRegion uniform8].enum =
        [(0, Detection.wholeRegion uniform8)] := rfl
    rw [henum]
    rw [List.foldl_cons, List.foldl_nil]
    have hstep : scanStep envInvoice ([], 0, none) (0, Detection.wholeRegion uniform8) =
        ([⟨bytes "Invoice payment", [0, 0, 8, 8], .Text, none, 1/2⟩], 6/10, some 0) := by
      unfold scanStep
      dsimp only
      have hdec : Decoding.decode envInvoice (Detection.wholeRegion uniform8).image =
          .ok ⟨bytes "Invoice payment", .Unknown, none, []⟩ := rfl
      rw [hdec]
      dsimp only
      have hct : ContentType.detect (bytes "Invoice payment") = .Text := by decide
      have hscore : Payment.relevance_score (bytes "Invoice payment") = 6/10 := rfl
      rw [hct, hscore]
      rw [if_pos (by norm_num : (6 : Rat)/10 > 0), if_neg (by decide)]
      rfl
    rw [hstep]
    rfl
  · decide

/-! ## `preprocessing.rs` : corner finding

`find_corners` binarises via `imageproc::contrast::adaptive_threshold` and
extracts contours via `imageproc::contours::find_contours` — both external
library calls — so the model takes the extracted contour list as an input
and covers everything after it: Ramer-Douglas-Peucker simplification,
the area and convexity gates, and corner ordering. -/

namespace Preprocessing

/-- `imageproc::point::Point<i32>`. -/
structure Pt where
  x : Int
  y : Int
deriving DecidableEq, Repr

/-- One level of `simplify_douglas_peucker`, on squared distances: within a
level all perpendicular distances share the positive denominator
`dx^2 + dy^2` (or are plain point distances when the segment is degenerate),
so the source's `f32` comparisons `d > dmax` and `dmax > epsilon` (epsilon
= 5.0 at the only call site) are equivalent to the integer comparisons of
`num^2` against each other and against `25 * (dx^2 + dy^2)` (resp. of the
squared point distance against 25).  The fuel argument only makes the
recursion structural; it never runs out, because each recursive call gets a
strictly shorter list (`1 ≤ index ≤ len - 2` whenever the split is taken). -/
def rdpAux : Nat → List Pt → List Pt
  | 0, pts => pts
  | fuel + 1, pts =>
    if pts.length < 3 then pts
    else
      let p1 := pts.getD 0 ⟨0, 0⟩
      let p2 := pts.getD (pts.length - 1) ⟨0, 0⟩
      let dx := p2.x - p1.x
      let dy := p2.y - p1.y
      let degenerate := dx = 0 ∧ dy = 0
      let measure : Pt → Int := fun p =>
        if degenerate then (p.x - p1.x) ^ 2 + (p.y - p1.y) ^ 2
        else (dy * p.x - dx * p.y + p2.x * p1.y - p2.y * p1.x) ^ 2
      let thresholdSq : Int := if degenerate then 25 else 25 * (dx ^ 2 + dy ^ 2)
      let dm := (List.range (pts.length - 1 - 1)).foldl
        (fun (acc : Int × Nat) k =>
          let i := k + 1
          let d := measure (pts.getD i ⟨0, 0⟩)
          if d > acc.1 then (d, i) else acc) (0, 0)
      if dm.1 > thresholdSq then
        (rdpAux fuel (pts.take (dm.2 + 1))).dropLast ++ rdpAux fuel (pts.drop dm.2)
      else [p1, p2]

/-- `simplify_douglas_peucker(points, 5.0)` from `preprocessing.rs`. -/
def simplify_douglas_peucker (points : List Pt) : List Pt :=
  rdpAux points.length points

/-- The signed shoelace sum accumulated by `polygon_area`. -/
def shoelace (points : List Pt) : Int :=
  let n := points.length
  ((List.range n).map (fun i =>
    let p := points.getD i ⟨0, 0⟩
    let q := points.getD ((i + 1) % n) ⟨0, 0⟩
    p.x * q.y - q.x * p.y)).sum

/-- `polygon_area` from `preprocessing.rs`: half the absolute shoelace sum. -/
def polygon_area (points : List Pt) : Rat :=
  |((shoelace points : Rat)) / 2|

/-- `is_convex` from `preprocessing.rs`: the function returns `true` for
every 4-point polygon — the convexity cross-product check announced by its
comment is not implemented. -/
def is_convex (points : List Pt) : Bool :=
  points.length = 4

/-- The y-then-x relations used by `sort_corners`. -/
def leY (a b : Rat × Rat) : Prop := a.2 ≤ b.2

def leX (a b : Rat × Rat) : Prop := a.1 ≤ b.1

instance : DecidableRel leY := fun a b => inferInstanceAs (Decidable (a.2 ≤ b.2))

instance : DecidableRel leX := fun a b => inferInstanceAs (Decidable (a.1 ≤ b.1))

instance : IsTotal (Rat × Rat) leY := ⟨fun a b => le_total a.2 b.2⟩

instance : IsTrans (Rat × Rat) leY := ⟨fun _ _ _ => le_trans⟩

/-- `sort_corners` from `preprocessing.rs`: stable sort by y, split into the
two lowest-y (top) and two highest-y (bottom) points, each pair sorted by x,
returned as `[top-left, top-right, bottom-right, bottom-left]` (the `i32` to
`f32` conversion is exact at contour magnitudes and modelled by the cast to
`Rat`; insertion sort is stable, like Rust's `sort_by`). -/
def sort_corners (points : List Pt) : List (Rat × Rat) :=
  let pts := points.map (fun p => ((p.x : Rat), (p.y : Rat)))
  let sorted := List.insertionSort leY pts
  let top := List.insertionSort leX (sorted.take 2)
  let bottom := List.insertionSort leX (sorted.drop 2)
  [top.getD 0 (0, 0), top.getD 1 (0, 0), bottom.getD 1 (0, 0), bottom.getD 0 (0, 0)]

/-- `ImageProcessor::find_corners` from `preprocessing.rs`, downstream of the
external binarisation and contour extraction: the first contour whose
simplification has exactly 4 vertices, spans more than 10% of the crop area
and passes `is_convex` yields the sorted corners. -/
def find_corners (contours : List (List Pt)) (img : Img) : Option (List (Rat × Rat)) :=
  let min_area : Rat := ((img.width * img.height : Nat) : Rat) * (1/10)
  contours.findSome? (fun contour =>
    let simplified := simplify_douglas_peucker contour
    if simplified.length = 4 ∧ polygon_area simplified > min_area ∧
        is_convex simplified then
      some (sort_corners simplified)
    else none)

/-- Modelled from the spec: "it is convex" — the convexity of the accepted
quadrilateral that `find_corners` is claimed to check: the cross products of
consecutive edges all share one sign. -/
def quadCrosses (q : List (Rat × Rat)) : List Rat :=
  (List.range 4).map (fun i =>
    let p0 := q.getD (i % 4) (0, 0)
    let p1 := q.getD ((i + 1) % 4) (0, 0)
    let p2 := q.getD ((i + 2) % 4) (0, 0)
    (p1.1 - p0.1) * (p2.2 - p1.2) - (p1.2 - p0.2) * (p2.1 - p1.1))

/-- Modelled from the spec: a convex quadrilateral. -/
def convexQuad (q : List (Rat × Rat)) : Prop :=
  q.length = 4 ∧
    ((∀ c ∈ quadCrosses q, 0 ≤ c) ∨ (∀ c ∈ quadCrosses q, c ≤ 0))

/-- A list of length 4 is an explicit 4-element list. -/
theorem exists_four_of_length {α : Type} :
    ∀ (l : List α), l.length = 4 → ∃ a b c d, l = [a, b, c, d]
  | [a, b, c, d], _ => ⟨a, b, c, d, rfl⟩
  | [], h => absurd h (by simp)
  | [_], h => absurd h (by simp)
  | [_, _], h => absurd h (by simp)
  | [_, _, _], h => absurd h (by simp)
  | _ :: _ :: _ :: _ :: _ :: _, h => absurd h (by simp)

/-- Insertion sort of a two-element list. -/
theorem insertionSort_pair {α : Type} (r : α → α → Prop) [DecidableRel r] (a b : α) :
    List.insertionSort r [a, b] = if r a b then [a, b] else [b, a] := by
  simp only [List.insertionSort, List.orderedInsert]

/-- The output of `sort_corners` on a 4-point polygon is ordered
top-left, top-right, bottom-right, bottom-left by y then x. -/
theorem sort_corners_ordered (s : List Pt) (hs : s.length = 4) :
    ∃ tl tr br bl, sort_corners s = [tl, tr, br, bl] ∧
      tl.1 ≤ tr.1 ∧ bl.1 ≤ br.1 ∧
      tl.2 ≤ bl.2 ∧ tl.2 ≤ br.2 ∧ tr.2 ≤ bl.2 ∧ tr.2 ≤ br.2 := by
  have hplen : (s.map (fun p => ((p.x : Rat), (p.y : Rat)))).length = 4 := by
    rw [List.length_map, hs]
  have hslen : (List.insertionSort leY
      (s.map (fun p => ((p.x : Rat), (p.y : Rat))))).length = 4 := by
    rw [(List.perm_insertionSort leY _).length_eq, hplen]
  obtain ⟨a, b, c, d, habcd⟩ := exists_four_of_length _ hslen
  have hsorted := List.sorted_insertionSort leY
    (s.map (fun p => ((p.x : Rat), (p.y : Rat))))
  rw [habcd] at hsorted
  simp only [List.Sorted, List.pairwise_cons, List.mem_cons, List.mem_singleton,
    List.not_mem_nil, forall_eq_or_imp, forall_eq, List.Pairwise.nil,
    IsEmpty.forall_iff, implies_true, and_true] at hsorted
  obtain ⟨⟨hab, hac, had⟩, ⟨hbc, hbd⟩, hcd⟩ := hsorted
  unfold sort_corners
  dsimp only
  rw [habcd]
  have htake : ([a, b, c, d] : List (Rat × Rat)).take 2 = [a, b] := rfl
  have hdrop : ([a, b, c, d] : List (Rat × Rat)).drop 2 = [c, d] := rfl
  rw [htake, hdrop, insertionSort_pair leX a b, insertionSort_pair leX c d]
  by_cases hx1 : leX a b <;> by_cases hx2 : leX c d
  · rw [if_pos hx1, if_pos hx2]
    exact ⟨a, b, d, c, rfl, hx1, hx2, hac, had, hbc, hbd⟩
  · rw [if_pos hx1, if_neg hx2]
    exact ⟨a, b, c, d, rfl, hx1, le_of_not_le hx2, had, hac, hbd, hbc⟩
  · rw [if_neg hx1, if_pos hx2]
    exact ⟨b, a, d, c, rfl, le_of_not_le hx1, hx2, hbc, hbd, hac, had⟩
  · rw [if_neg hx1, if_neg hx2]
    exact ⟨b, a, c, d, rfl, le_of_not_le hx1, le_of_not_le hx2, hbd, hbc, had, hac⟩

end Preprocessing

open Preprocessing in
/-- Claim C9 (amended): `find_corners` returns Some only when some contour
simplifies to exactly 4 vertices with polygon area above 10% of the crop
area; convexity is not actually checked (`is_convex` accepts every 4-point
polygon); the returned points are ordered top-left, top-right, bottom-right,
bottom-left by y then x. -/
theorem C9_thm (contours : List (List Pt)) (img : Img) (q : List (Rat × Rat))
    (h : find_corners contours img = some q) :
    (∃ c ∈ contours,
      (simplify_douglas_peucker c).length = 4 ∧
      polygon_area (simplify_douglas_peucker c) >
        ((img.width * img.height : Nat) : Rat) * (1/10) ∧
      q = sort_corners (simplify_douglas_peucker c)) ∧
    (∃ tl tr br bl, q = [tl, tr, br, bl] ∧
      tl.1 ≤ tr.1 ∧ bl.1 ≤ br.1 ∧
      tl.2 ≤ bl.2 ∧ tl.2 ≤ br.2 ∧ tr.2 ≤ bl.2 ∧ tr.2 ≤ br.2) := by
  unfold find_corners at h
  dsimp only at h
  obtain ⟨c, hc, hfc⟩ := List.exists_of_findSome?_eq_some h
  by_cases hcond : (simplify_douglas_peucker c).length = 4 ∧
      polygon_area (simplify_douglas_peucker c) >
        ((img.width * img.height : Nat) : Rat) * (1/10) ∧
      is_convex (simplify_douglas_peucker c)
  · rw [if_pos hcond] at hfc
    have hq : q = sort_corners (simplify_douglas_peucker c) :=
      (Option.some.inj hfc).symm
    refine ⟨⟨c, hc, hcond.1, hcond.2.1, hq⟩, ?_⟩
    rw [hq]
    exact sort_corners_ordered _ hcond.1
  · rw [if_neg hcond] at hfc
    cases hfc

/-- The non-convex dart contour used to exhibit the missing convexity
check. -/
def contour0 : List Preprocessing.Pt :=
  [⟨0, 0⟩, ⟨100, 0⟩, ⟨40, 20⟩, ⟨0, 100⟩]

/-- A 100x100 crop (only its dimensions matter to `find_corners`). -/
def crop100 : Img := ⟨100, 100, fun _ _ => 0⟩

/-- The corner quad `find_corners` accepts for `contour0`. -/
def quad0 : List (Rat × Rat) := [(0, 0), (100, 0), (40, 20), (0, 100)]

/-- `find_corners` accepts the dart contour: it simplifies to its own four
vertices, its area 3000 exceeds 10% of 100*100, and the vacuous `is_convex`
passes. -/
theorem find_corners_contour0 :
    Preprocessing.find_corners [contour0] crop100 = some quad0 := by
  have hsimp : Preprocessing.simplify_douglas_peucker contour0 = contour0 := by decide
  have hsh : Preprocessing.shoelace contour0 = 6000 := by decide
  have harea : Preprocessing.polygon_area contour0 = 3000 := by
    unfold Preprocessing.polygon_area
    rw [hsh]
    norm_num
  have hsort : Preprocessing.sort_corners contour0 = quad0 := by decide
  unfold Preprocessing.find_corners
  dsimp only
  rw [List.findSome?]
  rw [hsimp, if_pos ⟨by decide, by
      rw [harea]
      show (3000 : Rat) > ((100 * 100 : Nat) : Rat) * (1/10)
      norm_num, by decide⟩]
  rw [hsort]

/-- Claim C9, counterexample to the claim as stated: `find_corners` returns
Some for the dart contour, whose accepted quadrilateral is not convex (its
consecutive-edge cross products are [2000, -4000, 4000, 10000]). -/
theorem C9_counterexample :
    Preprocessing.find_corners [contour0] crop100 = some quad0 ∧
    ¬ Preprocessing.convexQuad quad0 := by
  refine ⟨find_corners_contour0, ?_⟩
  intro hcv
  have hcr : Preprocessing.quadCrosses quad0 = [2000, -4000, 4000, 10000] := by
    unfold Preprocessing.quadCrosses quad0
    norm_num [List.range_succ]
  rcases hcv.2 with h | h
  · have := h (-4000) (by rw [hcr]; simp)
    norm_num at this
  · have := h 2000 (by rw [hcr]; simp)
    norm_num at this

/-- Claim C9, witness: the amended theorem applied to the dart contour. -/
theorem C9_witness :
    (∃ c ∈ [contour0],
      (Preprocessing.simplify_douglas_peucker c).length = 4 ∧
      Preprocessing.polygon_area (Preprocessing.simplify_douglas_peucker c) >
        ((crop100.width * crop100.height : Nat) : Rat) * (1/10) ∧
      quad0 = Preprocessing.sort_corners (Preprocessing.simplify_douglas_peucker c)) ∧
    (∃ tl tr br bl, quad0 = [tl, tr, br, bl] ∧
      tl.1 ≤ tr.1 ∧ bl.1 ≤ br.1 ∧
      tl.2 ≤ bl.2 ∧ tl.2 ≤ br.2 ∧ tr.2 ≤ bl.2 ∧ tr.2 ≤ br.2) :=
  C9_thm [contour0] crop100 quad0 find_corners_contour0

end QR
